import Mathlib

set_option linter.unusedSectionVars false

/-!
# Tribrato: the `VibratoEngine` modulation core

A shallow embedding of `Source/VibratoEngine.h` and `Source/VibratoEngine.cpp`.

Conventions of the embedding.

* `float` / `double` values are elements of an arbitrary linearly ordered field `F`
  with a floor function (`ℚ` for evaluation, `ℝ` for the analytic statements);
  arithmetic is exact.
* The library functions `std::sin`, `std::pow`, `std::tan`, the constant
  `juce::MathConstants<float>::pi` and the random draw `dist (rng)` are fields of a
  `MathEnv`; the generator state has an arbitrary type `R`.
* `int` values are `Int`; `x & (DELAY_BUF_SIZE - 1)` is `x % 4096`, which is what the
  mask computes on a two's-complement `int` for the power-of-two size 4096.
* Arrays are functions from their indices; a write is a pointwise update.
* `while` loops are recursive functions whose termination proof is the termination
  of the loop; `for` loops are folds over `List.range`.
-/

namespace Tribrato

/-! ## JUCE helpers -/

section Helpers

variable {F : Type} [LinearOrderedField F]

/-- The function `juce::jmax (a, b)`, which is `a < b ? b : a`. -/
def jmax (a b : F) : F := if a < b then b else a

/-- The function `juce::jmin (a, b)`, which is `b < a ? b : a`. -/
def jmin (a b : F) : F := if b < a then b else a

/-- The function `juce::jlimit (lo, hi, v)`, which is
`v < lo ? lo : (hi < v ? hi : v)`. -/
def jlimit (lo hi v : F) : F := if v < lo then lo else if hi < v then hi else v

end Helpers

/-! ## Constants (`VibratoEngine.h`, lines 62-64 and 82-84) -/

/-- The constant `MAX_CHANNELS`. -/
def MAX_CHANNELS : Nat := 2

/-- The constant `DELAY_BUF_SIZE`. -/
def DELAY_BUF_SIZE : Int := 4096

/-- The constant `NUM_FORMANTS`. -/
def NUM_FORMANTS : Nat := 3

section Model

variable {F : Type} [LinearOrderedField F] [FloorRing F] {R : Type}

/-- The constant `BASE_DELAY`. -/
def BASE_DELAY : F := 1024

/-- The member `formantBaseFreqs`, initialised to `{ 600, 1500, 2800 }` and never
written afterwards. -/
def formantBaseFreqs (f : Nat) : F :=
  if f = 0 then 600 else if f = 1 then 1500 else 2800

/-- The library functions and the random source the engine calls. -/
structure MathEnv (F R : Type) where
  /-- The function `std::sin`. -/
  sin : F → F
  /-- The function `std::pow`. -/
  pow : F → F → F
  /-- The function `std::tan`. -/
  tan : F → F
  /-- The constant `juce::MathConstants<float>::pi`. -/
  pi : F
  /-- The draw `dist (rng)`: the value drawn and the generator's next state. -/
  dist : R → F × R

/-- The conversion `static_cast<int>` of a floating-point value: truncation toward
zero. -/
def truncToInt (x : F) : Int := if 0 ≤ x then ⌊x⌋ else ⌈x⌉

/-- The mask `x & (DELAY_BUF_SIZE - 1)` on an `int`. -/
def maskIndex (x : Int) : Int := x % DELAY_BUF_SIZE

/-! ## Parameters and state -/

/-- The struct `VibratoEngine::Params`. -/
structure Params (F : Type) where
  triggered : Bool
  onsetMs : F
  rateHz : F
  pitchCents : F
  amplitude : F
  formant : F
  variation : F

/-- The struct `VibratoEngine::SVFilter`: two state registers and three
coefficients. -/
structure SVFilter (F : Type) where
  s1 : F
  s2 : F
  a1 : F
  a2 : F
  a3 : F

/-- The method `SVFilter::setParams`. -/
def SVFilter.setParams (m : MathEnv F R) (flt : SVFilter F) (cutoffHz Q sampleRate : F) :
    SVFilter F :=
  let maxFreq := sampleRate * 0.48
  let fc := jlimit 80 maxFreq cutoffHz
  let g := m.tan (m.pi * fc / sampleRate)
  let k := 1 / Q
  let a1 := 1 / (1 + g * (g + k))
  let a2 := g * a1
  let a3 := g * a2
  { flt with a1 := a1, a2 := a2, a3 := a3 }

/-- The method `SVFilter::processBandpass`: the returned value and the filter with
its registers updated. -/
def SVFilter.processBandpass (flt : SVFilter F) (x : F) : F × SVFilter F :=
  let v3 := x - flt.s2
  let v1 := flt.a1 * flt.s1 + flt.a2 * v3
  let v2 := flt.s2 + flt.a2 * flt.s1 + flt.a3 * v3
  (v1, { flt with s1 := 2 * v1 - flt.s1, s2 := 2 * v2 - flt.s2 })

/-- The method `SVFilter::resetState`. -/
def SVFilter.resetState (flt : SVFilter F) : SVFilter F :=
  { flt with s1 := 0, s2 := 0 }

/-- The data members of `VibratoEngine`. `delayBuf ch i` and `formantFilters ch f`
are the array cells; `rng` is the state of the generator. -/
structure VibratoEngine (F R : Type) where
  sr : F
  delayBuf : Nat → Int → F
  writePos : Int
  lfoPhase : F
  envelope : F
  rng : R
  variationSmoothed : F
  variationTarget : F
  variationCountdown : Int
  formantFilters : Nat → Nat → SVFilter F
  formantUpdateCounter : Int

/-- A `juce::AudioBuffer<float>`: its channel count, its length and its samples. -/
structure AudioBuffer (F : Type) where
  numChannels : Nat
  numSamples : Nat
  data : Nat → Nat → F

/-- The accessor `buffer.getSample (ch, i)`. -/
def AudioBuffer.getSample (b : AudioBuffer F) (ch i : Nat) : F := b.data ch i

/-- The mutator `buffer.setSample (ch, i, v)`. -/
def AudioBuffer.setSample (b : AudioBuffer F) (ch i : Nat) (v : F) : AudioBuffer F :=
  { b with data := fun c j => if c = ch ∧ j = i then v else b.data c j }

/-! ## `reset` and `prepare` -/

/-- The method `VibratoEngine::reset`. -/
def reset (e : VibratoEngine F R) : VibratoEngine F R :=
  { e with
    delayBuf := fun ch i =>
      if ch < MAX_CHANNELS ∧ 0 ≤ i ∧ i < DELAY_BUF_SIZE then 0 else e.delayBuf ch i,
    writePos := 0,
    lfoPhase := 0,
    envelope := 0,
    variationSmoothed := 0,
    variationTarget := 0,
    variationCountdown := 0,
    formantUpdateCounter := 0,
    formantFilters := fun ch f =>
      if ch < MAX_CHANNELS ∧ f < NUM_FORMANTS then (e.formantFilters ch f).resetState
      else e.formantFilters ch f }

/-- The method `VibratoEngine::prepare`. -/
def prepare (e : VibratoEngine F R) (sampleRate : F) : VibratoEngine F R :=
  reset { e with sr := sampleRate }

/-! ## `readDelay` -/

/-- The loop `while (readPos < 0.0f) readPos += DELAY_BUF_SIZE;` of `readDelay`. -/
def wrapReadPos {F : Type} [LinearOrderedField F] [FloorRing F] (readPos : F) : F :=
  if readPos < 0 then wrapReadPos (readPos + 4096) else readPos
termination_by (-⌊readPos / 4096⌋).toNat
decreasing_by
  have h1 : ⌊(readPos + 4096) / 4096⌋ = ⌊readPos / 4096⌋ + 1 := by
    rw [add_div, div_self (by norm_num : (4096 : F) ≠ 0)]
    exact Int.floor_add_one _
  have h2 : ⌊readPos / 4096⌋ < 0 := by
    rw [Int.floor_lt]
    have : readPos / 4096 < 0 := div_neg_of_neg_of_pos (by assumption) (by norm_num)
    simpa using this
  rw [h1]
  omega

/-- The four-point interpolation polynomial of `readDelay` (lines 183-188). -/
def hermite (ym1 y0 y1 y2 frac : F) : F :=
  let c0 := y0
  let c1 := 0.5 * (y1 - ym1)
  let c2 := ym1 - 2.5 * y0 + 2.0 * y1 - 0.5 * y2
  let c3 := 0.5 * (y2 - ym1) + 1.5 * (y0 - y1)
  ((c3 * frac + c2) * frac + c1) * frac + c0

/-- The read position of `readDelay` after its wrap loop. -/
def readPosOf (writePos : Int) (delaySamples : F) : F :=
  wrapReadPos ((writePos : F) - delaySamples)

/-- The four tap indices `im1`, `i0`, `i1`, `i2` of `readDelay` (lines 169-176) for a
write position and a delay length. -/
def tapIndices (writePos : Int) (delaySamples : F) : List Int :=
  let idx : Int := truncToInt (readPosOf writePos delaySamples)
  [maskIndex (idx - 1 + DELAY_BUF_SIZE), maskIndex idx, maskIndex (idx + 1),
    maskIndex (idx + 2)]

/-- The method `VibratoEngine::readDelay`. -/
def readDelay (e : VibratoEngine F R) (channel : Nat) (delaySamples : F) : F :=
  let readPos := readPosOf e.writePos delaySamples
  let idx : Int := truncToInt readPos
  let frac := readPos - (idx : F)
  let im1 := maskIndex (idx - 1 + DELAY_BUF_SIZE)
  let i0 := maskIndex idx
  let i1 := maskIndex (idx + 1)
  let i2 := maskIndex (idx + 2)
  let ym1 := e.delayBuf channel im1
  let y0 := e.delayBuf channel i0
  let y1 := e.delayBuf channel i1
  let y2 := e.delayBuf channel i2
  hermite ym1 y0 y1 y2 frac

/-! ## `process` -/

/-- The local `attackRate` of `process`. -/
def attackRate (p : Params F) (sr : F) : F := 1 / jmax 1 ((p.onsetMs / 1000) * sr)

/-- The local `releaseRate` of `process`. -/
def releaseRate (sr : F) : F := 1 / jmax 1 (0.015 * sr)

/-- The local `envTarget` of `process`. -/
def envTarget (p : Params F) : F := if p.triggered then 1 else 0

/-- The local `ampDepth` of `process`. -/
def ampDepth (p : Params F) : F := p.amplitude / 100

/-- The local `fmtDepth` of `process`. -/
def fmtDepth (p : Params F) : F := p.formant / 100

/-- The local `varAmt` of `process`. -/
def varAmt (p : Params F) : F := p.variation / 100

/-- The envelope update of `process` (lines 49-58). -/
def stepEnvelope (envelope target attack release : F) : F :=
  if envelope < target then
    let e1 := envelope + attack
    if e1 > target then target else e1
  else if envelope > target then
    let e1 := envelope - release
    if e1 < target then target else e1
  else envelope

/-- The variation update of `process` (lines 61-73). -/
def stepVariation (m : MathEnv F R) (p : Params F) (e : VibratoEngine F R) :
    VibratoEngine F R :=
  if varAmt p > 0 then
    let cd := e.variationCountdown - 1
    let e1 : VibratoEngine F R :=
      if cd ≤ 0 then
        let d := m.dist e.rng
        { e with variationTarget := d.1, rng := d.2,
                 variationCountdown := truncToInt (e.sr * 0.04) }
      else { e with variationCountdown := cd }
    { e1 with variationSmoothed :=
        e1.variationSmoothed + (e1.variationTarget - e1.variationSmoothed) * 0.002 }
  else { e with variationSmoothed := 0 }

/-- The local `effectiveRate` of `process` (lines 76-78), from the variation value
just updated. -/
def effectiveRate (p : Params F) (e : VibratoEngine F R) : F :=
  jmax 0.01 (p.rateHz * (1 + e.variationSmoothed * varAmt p * 0.25))

/-- The loop `while (lfoPhase >= 1.0f) lfoPhase -= 1.0f;` of `process`. -/
def wrapPhase {F : Type} [LinearOrderedField F] [FloorRing F] (lfoPhase : F) : F :=
  if lfoPhase ≥ 1 then wrapPhase (lfoPhase - 1) else lfoPhase
termination_by ⌊lfoPhase⌋.toNat
decreasing_by
  have h1 : ⌊lfoPhase - 1⌋ = ⌊lfoPhase⌋ - 1 := Int.floor_sub_one _
  have h2 : 1 ≤ ⌊lfoPhase⌋ := by
    rw [Int.le_floor]
    simpa using (by assumption : lfoPhase ≥ 1)
  rw [h1]
  omega

/-- The phase update of `process` (lines 80-81). -/
def stepPhase (p : Params F) (e : VibratoEngine F R) : VibratoEngine F R :=
  { e with lfoPhase := wrapPhase (e.lfoPhase + effectiveRate p e / e.sr) }

/-- The channel-independent state update at the head of the sample loop (lines
48-81): envelope, variation, LFO phase. -/
def updateControls (m : MathEnv F R) (p : Params F) (e : VibratoEngine F R) :
    VibratoEngine F R :=
  let env := stepEnvelope e.envelope (envTarget p) (attackRate p e.sr) (releaseRate e.sr)
  let e1 : VibratoEngine F R := { e with envelope := env }
  let e2 := stepVariation m p e1
  stepPhase p e2

/-- The local `lfoValue` of `process` (lines 83-84). -/
def lfoValue (m : MathEnv F R) (e : VibratoEngine F R) : F :=
  m.sin (2 * m.pi * e.lfoPhase)

/-- The local `lfo` of `process` (lines 87-88). -/
def lfo (m : MathEnv F R) (p : Params F) (e : VibratoEngine F R) : F :=
  jlimit (-1) 1 (lfoValue m e + e.variationSmoothed * varAmt p * 0.15)

/-- The local `modAmp` of `process` (lines 94-100). -/
def modAmp (m : MathEnv F R) (p : Params F) (e : VibratoEngine F R) : F :=
  let effPitch := jmax 0 (p.pitchCents * (1 + e.variationSmoothed * varAmt p * 0.15))
  (m.pow 2 (effPitch / 1200) - 1) * e.sr / (2 * m.pi * effectiveRate p e)

/-- The local `delayMod` of `process` (lines 91-102). -/
def delayMod (m : MathEnv F R) (p : Params F) (e : VibratoEngine F R) : F :=
  if p.pitchCents > 0 ∧ effectiveRate p e > 0 then lfo m p e * modAmp m p e * e.envelope
  else 0

/-- The local `totalDelay` of `process` (lines 104-106): the delay length passed to
`readDelay`. -/
def totalDelay (m : MathEnv F R) (p : Params F) (e : VibratoEngine F R) : F :=
  jlimit 2 ((DELAY_BUF_SIZE - 4 : Int) : F) (BASE_DELAY + delayMod m p e)

/-- The local `ampMod` of `process` (line 110). -/
def ampMod (m : MathEnv F R) (p : Params F) (e : VibratoEngine F R) : F :=
  1 - ampDepth p * e.envelope * (1 - lfo m p e) * 0.5

/-- The guard `fmtDepth > 0.0f && envelope > 0.001f` of lines 113 and 144. -/
def formantActive (p : Params F) (e : VibratoEngine F R) : Prop :=
  fmtDepth p > 0 ∧ e.envelope > 0.001

instance (p : Params F) (e : VibratoEngine F R) : Decidable (formantActive p e) := by
  unfold formantActive
  infer_instance

/-- The coefficient refresh of `process` (lines 113-129). -/
def updateFormantCoeffs (m : MathEnv F R) (p : Params F) (numChannels : Nat)
    (e : VibratoEngine F R) : VibratoEngine F R :=
  if formantActive p e then
    let c := e.formantUpdateCounter + 1
    if c ≥ 32 then
      let depth := fmtDepth p * e.envelope
      let freqMult := jmax 0.3 (1 + lfo m p e * depth * 0.4)
      { e with
        formantUpdateCounter := 0,
        formantFilters := fun ch f =>
          if ch < numChannels ∧ f < NUM_FORMANTS then
            (e.formantFilters ch f).setParams m (formantBaseFreqs f * freqMult) 2 e.sr
          else e.formantFilters ch f }
    else { e with formantUpdateCounter := c }
  else e

/-- The loop `for f: fSum += formantFilters[ch][f].processBandpass (delayed)` (lines
147-149): the sum and the filters of the channel after the calls. -/
def formantSum (filters : Nat → SVFilter F) (delayed : F) : F × (Nat → SVFilter F) :=
  (List.range NUM_FORMANTS).foldl
    (fun acc f =>
      let r := (acc.2 f).processBandpass delayed
      (acc.1 + r.1, fun g => if g = f then r.2 else acc.2 g))
    (0, filters)

/-- The body of the channel loop of `process` (lines 134-156) for channel `ch` at
sample `i`. -/
def processChannel (p : Params F) (td am : F) (i : Nat)
    (s : VibratoEngine F R × AudioBuffer F) (ch : Nat) :
    VibratoEngine F R × AudioBuffer F :=
  let input := s.2.getSample ch i
  let e1 : VibratoEngine F R := { s.1 with
    delayBuf := fun c j => if c = ch ∧ j = s.1.writePos then input else s.1.delayBuf c j }
  let delayed := readDelay e1 ch td
  if formantActive p e1 then
    let fGain := fmtDepth p * e1.envelope * 0.8
    let r := formantSum (e1.formantFilters ch) delayed
    let e2 : VibratoEngine F R := { e1 with
      formantFilters := fun c f => if c = ch then r.2 f else e1.formantFilters c f }
    (e2, s.2.setSample ch i ((delayed + fGain * r.1) * am))
  else
    (e1, s.2.setSample ch i (delayed * am))

/-- The body of the sample loop of `process` (lines 48-159) at sample `i`. -/
def processSample (m : MathEnv F R) (p : Params F) (numChannels : Nat)
    (s : VibratoEngine F R × AudioBuffer F) (i : Nat) :
    VibratoEngine F R × AudioBuffer F :=
  let e1 := updateControls m p s.1
  let e2 := updateFormantCoeffs m p numChannels e1
  let s3 := (List.range numChannels).foldl
    (processChannel p (totalDelay m p e1) (ampMod m p e1) i) (e2, s.2)
  ({ s3.1 with writePos := maskIndex (s3.1.writePos + 1) }, s3.2)

/-- The sample loop of `process` (line 46) run for its first `k` iterations. -/
def processUpTo (m : MathEnv F R) (e : VibratoEngine F R) (buffer : AudioBuffer F)
    (p : Params F) (k : Nat) : VibratoEngine F R × AudioBuffer F :=
  let numChannels := min buffer.numChannels MAX_CHANNELS
  (List.range k).foldl (processSample m p numChannels) (e, buffer)

/-- The method `VibratoEngine::process`: the engine and the buffer after the call. -/
def process (m : MathEnv F R) (e : VibratoEngine F R) (buffer : AudioBuffer F)
    (p : Params F) : VibratoEngine F R × AudioBuffer F :=
  processUpTo m e buffer p buffer.numSamples

/-! ## Runs of the engine -/

/-- The engine after one more iteration of the sample loop of `process`, run from
the state `e` on sample `i` of the buffer `buf` with the snapshot `p`. -/
def afterSample (m : MathEnv F R) (p : Params F) (buf : AudioBuffer F) (i : Nat)
    (e : VibratoEngine F R) : VibratoEngine F R :=
  (processSample m p (min buf.numChannels MAX_CHANNELS) (e, buf) i).1

/-- The engine after `process` has been called on each block of `bs` in order. -/
def runBlocks (m : MathEnv F R) (e : VibratoEngine F R) :
    List (AudioBuffer F × Params F) → VibratoEngine F R
  | [] => e
  | bp :: bs => runBlocks m (process m e bp.1 bp.2).1 bs

/-- The buffers `process` leaves behind when it is called on each block of `bs` in
order. -/
def runOutputs (m : MathEnv F R) (e : VibratoEngine F R) :
    List (AudioBuffer F × Params F) → List (AudioBuffer F)
  | [] => []
  | bp :: bs => (process m e bp.1 bp.2).2 :: runOutputs m (process m e bp.1 bp.2).1 bs

/-- The sample of channel `ch` at global index `n` of a sequence of buffers laid end
to end (`0` past the end). -/
def streamAt : List (AudioBuffer F) → Nat → Nat → F
  | [], _, _ => 0
  | b :: bs, ch, n =>
    if n < b.numSamples then b.getSample ch n else streamAt bs ch (n - b.numSamples)

/-- The total number of samples of a sequence of buffers. -/
def streamLength : List (AudioBuffer F) → Nat
  | [] => 0
  | b :: bs => b.numSamples + streamLength bs

/-- The state `e` is one the engine passes through after `prepare` at sample rate
`sr`: whole blocks `bs` are processed, then the first `k` samples of a further block,
all with parameters satisfying `V`. -/
def Reached (m : MathEnv F R) (V : Params F → Prop) (sr : F) (e : VibratoEngine F R) :
    Prop :=
  ∃ (e0 : VibratoEngine F R) (bs : List (AudioBuffer F × Params F))
    (b : AudioBuffer F) (p : Params F) (k : Nat),
    (∀ bp ∈ bs, V bp.2) ∧ V p ∧ k ≤ b.numSamples ∧
    e = (processUpTo m (runBlocks m (prepare e0 sr) bs) b p k).1

/-! ## Concrete inputs for evaluation -/

/-- The engine as constructed: the member initialisers of `VibratoEngine.h`, with the
generator in the state `rng`. -/
def VibratoEngine.init (rng : R) : VibratoEngine F R :=
  { sr := 44100, delayBuf := fun _ _ => 0, writePos := 0, lfoPhase := 0, envelope := 0,
    rng := rng, variationSmoothed := 0, variationTarget := 0, variationCountdown := 0,
    formantFilters := fun _ _ => { s1 := 0, s2 := 0, a1 := 0, a2 := 0, a3 := 0 },
    formantUpdateCounter := 0 }

/-- The member initialisers of `VibratoEngine::Params`. -/
def Params.default : Params F :=
  { triggered := false, onsetMs := 200, rateHz := 5.5, pitchCents := 50, amplitude := 0,
    formant := 0, variation := 0 }

/-- A `MathEnv` over `ℚ` with which the model runs on concrete inputs: short
polynomial stand-ins for the library functions and a counter-driven draw with
values in `[-1, 1]`. -/
def ratEnv : MathEnv ℚ Nat :=
  { sin := fun x => x - x ^ 3 / 6
    pow := fun _ y => 1 + y
    tan := fun x => x
    pi := 355 / 113
    dist := fun r => (((r * 7919 + 13) % 201 : Nat) / 100 - 1, r + 1) }

/-- An engine whose filters hold coefficients as `setParams` leaves them (here for
the base frequencies at 48 kHz), everything else as constructed. -/
def staleEngine : VibratoEngine ℚ Nat :=
  { (VibratoEngine.init 42 : VibratoEngine ℚ Nat) with
    formantFilters := fun _ f =>
      SVFilter.setParams ratEnv { s1 := 0, s2 := 0, a1 := 0, a2 := 0, a3 := 0 }
        (formantBaseFreqs f) 2 48000 }

/-! ## Vocabulary for the pure-delay statements -/

/-- The value `readDelay` returns, as a function of the channel's row of the delay
buffer, the write position and the delay length. -/
def readRow (row : Int → F) (writePos : Int) (delaySamples : F) : F :=
  let readPos := readPosOf writePos delaySamples
  let idx : Int := truncToInt readPos
  hermite (row (maskIndex (idx - 1 + DELAY_BUF_SIZE))) (row (maskIndex idx))
    (row (maskIndex (idx + 1))) (row (maskIndex (idx + 2))) (readPos - (idx : F))

/-- The signal `h` delayed by 1024 samples, with silence before it starts. -/
def delayed (h : Nat → F) (n : Nat) : F := if n < 1024 then 0 else h (n - 1024)

/-- On the next sample with snapshot `p` the engine in state `e` reads at a delay of
exactly 1024 samples, with unit tremolo gain and the formant stage skipped. -/
def PureDelay (m : MathEnv F R) (p : Params F) (e : VibratoEngine F R) : Prop :=
  totalDelay m p (updateControls m p e) = 1024 ∧ ampMod m p (updateControls m p e) = 1 ∧
    ¬ formantActive p (updateControls m p e)

/-- Row `ch` of the delay buffer holds the last samples of the stream `h`, of which
`n` samples have been written so far: `writePos` is `n mod 4096`, the cell
`k mod 4096` holds `h k` for each of the last 4095 indices `k < n`, and the cells
from `n` on are still zero. -/
def DelayHistory (e : VibratoEngine F R) (ch : Nat) (h : Nat → F) (n : Nat) : Prop :=
  e.writePos = ((n % 4096 : Nat) : Int) ∧
  (∀ k : Nat, k < n → n < k + 4096 → e.delayBuf ch ((k % 4096 : Nat) : Int) = h k) ∧
  (∀ j : Nat, n ≤ j → j < 4096 → e.delayBuf ch (j : Int) = 0)

/-- The two engines agree on every member other than the delay buffer and the filter
bank. -/
def SameControls (a b : VibratoEngine F R) : Prop :=
  a.sr = b.sr ∧ a.writePos = b.writePos ∧ a.lfoPhase = b.lfoPhase ∧
  a.envelope = b.envelope ∧ a.rng = b.rng ∧
  a.variationSmoothed = b.variationSmoothed ∧ a.variationTarget = b.variationTarget ∧
  a.variationCountdown = b.variationCountdown ∧
  a.formantUpdateCounter = b.formantUpdateCounter

/-! ## Vocabulary for the remaining statements -/

/-- The sample processed from state `e` with snapshot `p` reaches line 65,
`variationTarget = dist (rng)`: variation is on and the decremented countdown is at
most 0. -/
def drawsTarget (p : Params F) (e : VibratoEngine F R) : Prop :=
  varAmt p > 0 ∧ e.variationCountdown - 1 ≤ 0

instance (p : Params F) (e : VibratoEngine F R) : Decidable (drawsTarget p e) := by
  unfold drawsTarget
  infer_instance

/-- The engine after `prepare` at sample rate `sr`, the blocks `bs`, and then the
first `t` samples of the block `b` with snapshot `p`. -/
def stateAt (m : MathEnv F R) (e0 : VibratoEngine F R) (sr : F)
    (bs : List (AudioBuffer F × Params F)) (b : AudioBuffer F) (p : Params F) (t : Nat) :
    VibratoEngine F R :=
  (processUpTo m (runBlocks m (prepare e0 sr) bs) b p t).1

/-- The three derived coefficients of a filter. -/
def SVFilter.coeffs (flt : SVFilter F) : F × F × F := (flt.a1, flt.a2, flt.a3)

/-- The sample whose head of the loop has left the state `u` reaches line 117: the
formant stage is active and the incremented refresh counter is at least 32. -/
def refreshesCoeffs (p : Params F) (u : VibratoEngine F R) : Prop :=
  formantActive p u ∧ u.formantUpdateCounter + 1 ≥ 32

instance (p : Params F) (u : VibratoEngine F R) : Decidable (refreshesCoeffs p u) := by
  unfold refreshesCoeffs
  infer_instance

/-- The number of samples among the first `k` of the block `b`, processed from the
state `e` with snapshot `p`, on which the formant stage is active. -/
def activeCount (m : MathEnv F R) (p : Params F) (e : VibratoEngine F R)
    (b : AudioBuffer F) : Nat → Nat
  | 0 => 0
  | k + 1 =>
    activeCount m p e b k +
      if formantActive p (updateControls m p (processUpTo m e b p k).1) then 1 else 0

/-- The number of samples of the blocks `bs`, processed in order from the state `e`,
on which the formant stage is active. -/
def activeTotal (m : MathEnv F R) (e : VibratoEngine F R) :
    List (AudioBuffer F × Params F) → Nat
  | [] => 0
  | bp :: bs =>
    activeCount m bp.2 e bp.1 bp.1.numSamples + activeTotal m (process m e bp.1 bp.2).1 bs

/-- The buffer holding the samples of `x1` followed by those of `x2`, with the
channel count of `x1`. -/
def AudioBuffer.append (x1 x2 : AudioBuffer F) : AudioBuffer F :=
  { numChannels := x1.numChannels
    numSamples := x1.numSamples + x2.numSamples
    data := fun c j =>
      if j < x1.numSamples then x1.data c j else x2.data c (j - x1.numSamples) }

/-! ## Vocabulary for linearity -/

/-- The buffer `a * bx + b * by`, sample by sample, with the shape of `bx`. -/
def AudioBuffer.lincomb (a b : F) (bx bz : AudioBuffer F) : AudioBuffer F :=
  { numChannels := bx.numChannels
    numSamples := bx.numSamples
    data := fun c j => a * bx.data c j + b * bz.data c j }

/-- The buffers have the same shape and `bz = a * bx + b * by` sample by sample. -/
def LinBuffer (a b : F) (bx bw bz : AudioBuffer F) : Prop :=
  bw.numChannels = bx.numChannels ∧ bz.numChannels = bx.numChannels ∧
  bw.numSamples = bx.numSamples ∧ bz.numSamples = bx.numSamples ∧
  ∀ c j, bz.data c j = a * bx.data c j + b * bw.data c j

/-- The three filters have the same coefficients and the registers of `fz` are
`a` times those of `fx` plus `b` times those of `fw`. -/
def LinFilter (a b : F) (fx fw fz : SVFilter F) : Prop :=
  fx.a1 = fz.a1 ∧ fx.a2 = fz.a2 ∧ fx.a3 = fz.a3 ∧
  fw.a1 = fz.a1 ∧ fw.a2 = fz.a2 ∧ fw.a3 = fz.a3 ∧
  fz.s1 = a * fx.s1 + b * fw.s1 ∧ fz.s2 = a * fx.s2 + b * fw.s2

/-- The three engines agree on everything that does not hold audio, and the audio
held by `ez` (the cells of the delay buffer and the filter registers of the two
channels) is `a` times that of `ex` plus `b` times that of `ew`. -/
def LinEngine (a b : F) (ex ew ez : VibratoEngine F R) : Prop :=
  SameControls ex ez ∧ SameControls ew ez ∧
  (∀ c j, c < MAX_CHANNELS → 0 ≤ j → j < DELAY_BUF_SIZE →
    ez.delayBuf c j = a * ex.delayBuf c j + b * ew.delayBuf c j) ∧
  (∀ c f, c < MAX_CHANNELS → f < NUM_FORMANTS →
    LinFilter a b (ex.formantFilters c f) (ew.formantFilters c f) (ez.formantFilters c f))

end Model


/-! ## Basic facts about the helpers and the two `while` loops -/

section Clamp

variable {F : Type} [LinearOrderedField F]

theorem jmax_eq_max (a b : F) : jmax a b = max a b := by
  unfold jmax
  split_ifs with h
  · exact (max_eq_right h.le).symm
  · exact (max_eq_left (not_lt.mp h)).symm

theorem jmax_ge_left (a b : F) : a ≤ jmax a b := by
  rw [jmax_eq_max]; exact le_max_left _ _

theorem jlimit_eq (lo hi v : F) (h : lo ≤ hi) : jlimit lo hi v = max lo (min hi v) := by
  unfold jlimit
  split_ifs with h1 h2
  · rw [max_eq_left ((min_le_right _ _).trans h1.le)]
  · rw [min_eq_left h2.le, max_eq_right h]
  · rw [min_eq_right (not_lt.mp h2), max_eq_right (not_lt.mp h1)]

theorem jlimit_ge (lo hi v : F) (h : lo ≤ hi) : lo ≤ jlimit lo hi v := by
  rw [jlimit_eq lo hi v h]; exact le_max_left _ _

theorem jlimit_le (lo hi v : F) (h : lo ≤ hi) : jlimit lo hi v ≤ hi := by
  rw [jlimit_eq lo hi v h]; exact max_le h (min_le_left _ _)

theorem jlimit_of_mem (lo hi v : F) (h1 : lo ≤ v) (h2 : v ≤ hi) : jlimit lo hi v = v := by
  unfold jlimit
  rw [if_neg (not_lt.mpr h1), if_neg (not_lt.mpr h2)]

end Clamp

section Basic

variable {F : Type} [LinearOrderedField F] [FloorRing F] {R : Type}

theorem wrapPhase_of_lt (x : F) (h : x < 1) : wrapPhase x = x := by
  rw [wrapPhase, if_neg (not_le.mpr h)]

theorem wrapPhase_of_ge (x : F) (h : 1 ≤ x) : wrapPhase x = wrapPhase (x - 1) := by
  rw [wrapPhase, if_pos h]

/-- The phase loop returns the fractional part of a nonnegative phase. -/
theorem wrapPhase_eq_fract (x : F) (h : 0 ≤ x) : wrapPhase x = Int.fract x := by
  induction x using wrapPhase.induct with
  | case1 x hx ih =>
    rw [wrapPhase_of_ge x hx, ih (sub_nonneg.mpr hx), Int.fract_sub_one]
  | case2 x hx =>
    have hx1 : x < 1 := not_le.mp hx
    rw [wrapPhase_of_lt x hx1]
    exact (Int.fract_eq_iff.mpr ⟨h, hx1, 0, by simp⟩).symm

theorem wrapReadPos_of_nonneg (x : F) (h : 0 ≤ x) : wrapReadPos x = x := by
  rw [wrapReadPos, if_neg (not_lt.mpr h)]

theorem wrapReadPos_of_neg (x : F) (h : x < 0) : wrapReadPos x = wrapReadPos (x + 4096) := by
  rw [wrapReadPos, if_pos h]

/-- The read-position loop returns a value in `[0, 4096)` that differs from its
argument by a multiple of 4096, for every argument below 4096. -/
theorem wrapReadPos_spec (x : F) (h : x < 4096) :
    0 ≤ wrapReadPos x ∧ wrapReadPos x < 4096 ∧
      wrapReadPos x = x - 4096 * ((⌊x / 4096⌋ : Int) : F) := by
  induction x using wrapReadPos.induct with
  | case1 x hx ih =>
    have hlt : x + 4096 < 4096 := by linarith
    obtain ⟨h1, h2, h3⟩ := ih hlt
    rw [wrapReadPos_of_neg x hx]
    refine ⟨h1, h2, ?_⟩
    rw [h3, add_div, div_self (by norm_num : (4096 : F) ≠ 0), Int.floor_add_one]
    push_cast
    ring
  | case2 x hx =>
    have hx0 : 0 ≤ x := not_lt.mp hx
    rw [wrapReadPos_of_nonneg x hx0]
    refine ⟨hx0, h, ?_⟩
    have : ⌊x / 4096⌋ = 0 := by
      rw [Int.floor_eq_zero_iff]
      constructor
      · positivity
      · rw [div_lt_one (by norm_num)]; exact h
    rw [this]; simp

end Basic


/-! ## What each stage of the sample loop leaves alone -/

section Frame

variable {F : Type} [LinearOrderedField F] [FloorRing F] {R : Type}

theorem SameControls.refl (a : VibratoEngine F R) : SameControls a a :=
  ⟨rfl, rfl, rfl, rfl, rfl, rfl, rfl, rfl, rfl⟩

theorem SameControls.trans {a b c : VibratoEngine F R} (h1 : SameControls a b)
    (h2 : SameControls b c) : SameControls a c := by
  obtain ⟨a1, a2, a3, a4, a5, a6, a7, a8, a9⟩ := h1
  obtain ⟨b1, b2, b3, b4, b5, b6, b7, b8, b9⟩ := h2
  exact ⟨a1.trans b1, a2.trans b2, a3.trans b3, a4.trans b4, a5.trans b5, a6.trans b6,
    a7.trans b7, a8.trans b8, a9.trans b9⟩

/-- The channel body changes only the delay buffer and the filter bank. -/
theorem processChannel_sameControls (p : Params F) (td am : F) (i : Nat)
    (s : VibratoEngine F R × AudioBuffer F) (ch : Nat) :
    SameControls (processChannel p td am i s ch).1 s.1 := by
  unfold processChannel
  dsimp only
  split_ifs <;> exact ⟨rfl, rfl, rfl, rfl, rfl, rfl, rfl, rfl, rfl⟩

/-- The channel loop changes only the delay buffer and the filter bank. -/
theorem channelLoop_sameControls (p : Params F) (td am : F) (i : Nat)
    (s : VibratoEngine F R × AudioBuffer F) (nc : Nat) :
    SameControls ((List.range nc).foldl (processChannel p td am i) s).1 s.1 := by
  induction nc with
  | zero => exact SameControls.refl _
  | succ n ih =>
    rw [List.range_succ, List.foldl_append]
    exact (processChannel_sameControls p td am i _ n).trans ih

/-- The coefficient refresh changes only the refresh counter and the filter bank. -/
theorem updateFormantCoeffs_fields (m : MathEnv F R) (p : Params F) (nc : Nat)
    (e : VibratoEngine F R) :
    let r := updateFormantCoeffs m p nc e
    r.sr = e.sr ∧ r.writePos = e.writePos ∧ r.lfoPhase = e.lfoPhase ∧
    r.envelope = e.envelope ∧ r.rng = e.rng ∧
    r.variationSmoothed = e.variationSmoothed ∧ r.variationTarget = e.variationTarget ∧
    r.variationCountdown = e.variationCountdown ∧ r.delayBuf = e.delayBuf := by
  unfold updateFormantCoeffs
  dsimp only
  split_ifs <;> exact ⟨rfl, rfl, rfl, rfl, rfl, rfl, rfl, rfl, rfl⟩

theorem processSample_sr (m : MathEnv F R) (p : Params F) (nc : Nat)
    (s : VibratoEngine F R × AudioBuffer F) (i : Nat) :
    (processSample m p nc s i).1.sr = s.1.sr := by
  have h := channelLoop_sameControls p (totalDelay m p (updateControls m p s.1))
    (ampMod m p (updateControls m p s.1)) i
    (updateFormantCoeffs m p nc (updateControls m p s.1), s.2) nc
  have h2 := updateFormantCoeffs_fields m p nc (updateControls m p s.1)
  unfold processSample
  dsimp only at h h2 ⊢
  rw [h.1, h2.1]
  unfold updateControls stepPhase stepVariation
  dsimp only
  split_ifs <;> rfl

theorem processSample_writePos (m : MathEnv F R) (p : Params F) (nc : Nat)
    (s : VibratoEngine F R × AudioBuffer F) (i : Nat) :
    (processSample m p nc s i).1.writePos = maskIndex (s.1.writePos + 1) := by
  have h := channelLoop_sameControls p (totalDelay m p (updateControls m p s.1))
    (ampMod m p (updateControls m p s.1)) i
    (updateFormantCoeffs m p nc (updateControls m p s.1), s.2) nc
  have h2 := updateFormantCoeffs_fields m p nc (updateControls m p s.1)
  unfold processSample
  dsimp only at h h2 ⊢
  rw [h.2.1, h2.2.1]
  unfold updateControls stepPhase stepVariation
  dsimp only
  split_ifs <;> rfl

theorem processSample_envelope (m : MathEnv F R) (p : Params F) (nc : Nat)
    (s : VibratoEngine F R × AudioBuffer F) (i : Nat) :
    (processSample m p nc s i).1.envelope =
      stepEnvelope s.1.envelope (envTarget p) (attackRate p s.1.sr) (releaseRate s.1.sr) := by
  have h := channelLoop_sameControls p (totalDelay m p (updateControls m p s.1))
    (ampMod m p (updateControls m p s.1)) i
    (updateFormantCoeffs m p nc (updateControls m p s.1), s.2) nc
  have h2 := updateFormantCoeffs_fields m p nc (updateControls m p s.1)
  unfold processSample
  dsimp only at h h2 ⊢
  rw [h.2.2.2.1, h2.2.2.2.1]
  unfold updateControls stepPhase stepVariation
  dsimp only
  split_ifs <;> rfl

end Frame


/-! ## Runs: unfolding and induction -/

section Runs

variable {F : Type} [LinearOrderedField F] [FloorRing F] {R : Type}

theorem processUpTo_zero (m : MathEnv F R) (e : VibratoEngine F R) (b : AudioBuffer F)
    (p : Params F) : processUpTo m e b p 0 = (e, b) := rfl

theorem processUpTo_succ (m : MathEnv F R) (e : VibratoEngine F R) (b : AudioBuffer F)
    (p : Params F) (k : Nat) :
    processUpTo m e b p (k + 1) =
      processSample m p (min b.numChannels MAX_CHANNELS) (processUpTo m e b p k) k := by
  unfold processUpTo
  dsimp only
  rw [List.range_succ, List.foldl_append]
  rfl

theorem processUpTo_sr (m : MathEnv F R) (e : VibratoEngine F R) (b : AudioBuffer F)
    (p : Params F) (k : Nat) : (processUpTo m e b p k).1.sr = e.sr := by
  induction k with
  | zero => rfl
  | succ n ih => rw [processUpTo_succ, processSample_sr, ih]

/-- A property of the engine that every sample preserves holds after any number of
samples of a block. -/
theorem processUpTo_invariant (m : MathEnv F R) (Inv : VibratoEngine F R → Prop)
    (p : Params F)
    (hstep : ∀ (e : VibratoEngine F R) (nc : Nat) (buf : AudioBuffer F) (i : Nat),
      Inv e → Inv (processSample m p nc (e, buf) i).1)
    (e : VibratoEngine F R) (b : AudioBuffer F) (k : Nat) (h : Inv e) :
    Inv (processUpTo m e b p k).1 := by
  induction k with
  | zero => exact h
  | succ n ih =>
    rw [processUpTo_succ]
    exact hstep _ _ _ _ ih

/-- A property of the engine that every sample preserves holds after any sequence of
blocks. -/
theorem runBlocks_invariant (m : MathEnv F R) (V : Params F → Prop)
    (Inv : VibratoEngine F R → Prop)
    (hstep : ∀ (e : VibratoEngine F R) (p : Params F) (nc : Nat) (buf : AudioBuffer F)
      (i : Nat), V p → Inv e → Inv (processSample m p nc (e, buf) i).1)
    (bs : List (AudioBuffer F × Params F)) (hV : ∀ bp ∈ bs, V bp.2)
    (e : VibratoEngine F R) (h : Inv e) : Inv (runBlocks m e bs) := by
  induction bs generalizing e with
  | nil => exact h
  | cons bp bs ih =>
    have hp : V bp.2 := hV bp (List.mem_cons_self _ _)
    have hrest : ∀ x ∈ bs, V x.2 := fun x hx => hV x (List.mem_cons_of_mem _ hx)
    unfold runBlocks
    apply ih hrest
    exact processUpTo_invariant m Inv bp.2 (fun e nc buf i he => hstep e bp.2 nc buf i hp he)
      e bp.1 bp.1.numSamples h

/-- Induction over the states the engine passes through after `prepare`. -/
theorem Reached.induction (m : MathEnv F R) (V : Params F → Prop) (sr : F)
    (Inv : VibratoEngine F R → Prop)
    (h0 : ∀ e0 : VibratoEngine F R, Inv (prepare e0 sr))
    (hstep : ∀ (e : VibratoEngine F R) (p : Params F) (nc : Nat) (buf : AudioBuffer F)
      (i : Nat), V p → Inv e → Inv (processSample m p nc (e, buf) i).1)
    (e : VibratoEngine F R) (h : Reached m V sr e) : Inv e := by
  obtain ⟨e0, bs, b, p, k, hbs, hp, _, rfl⟩ := h
  apply processUpTo_invariant m Inv p (fun e nc buf i he => hstep e p nc buf i hp he)
  exact runBlocks_invariant m V Inv hstep bs hbs _ (h0 e0)

/-- The state right after `prepare` is one the engine passes through. -/
theorem Reached.start (m : MathEnv F R) (V : Params F → Prop) (sr : F)
    (e0 : VibratoEngine F R) (p : Params F) (hp : V p) :
    Reached m V sr (prepare e0 sr) :=
  ⟨e0, [], ⟨0, 0, fun _ _ => 0⟩, p, 0, by simp, hp, le_refl _, rfl⟩

theorem Reached.sr_eq (m : MathEnv F R) (V : Params F → Prop) (sr : F)
    (e : VibratoEngine F R) (h : Reached m V sr e) : e.sr = sr := by
  refine Reached.induction m V sr (fun e => e.sr = sr) (fun e0 => rfl) ?_ e h
  intro e p nc buf i _ he
  rw [processSample_sr]
  exact he

end Runs

/-! ## The envelope generator -/

section Envelope

variable {F : Type} [LinearOrderedField F] [FloorRing F] {R : Type}

theorem attackRate_pos (p : Params F) (sr : F) : 0 < attackRate p sr := by
  unfold attackRate
  have h := jmax_ge_left (1 : F) ((p.onsetMs / 1000) * sr)
  exact one_div_pos.mpr (by linarith)

theorem releaseRate_pos (sr : F) : 0 < releaseRate sr := by
  unfold releaseRate
  have h := jmax_ge_left (1 : F) (0.015 * sr)
  exact one_div_pos.mpr (by linarith)

/-- One envelope update lands between the old value and the target. -/
theorem stepEnvelope_between (env target a r : F) (ha : 0 ≤ a) (hr : 0 ≤ r) :
    min env target ≤ stepEnvelope env target a r ∧
      stepEnvelope env target a r ≤ max env target := by
  unfold stepEnvelope
  dsimp only
  split_ifs with h1 h2 h3 h4
  · exact ⟨min_le_right _ _, le_max_right _ _⟩
  · exact ⟨(min_le_left _ _).trans (by linarith), (not_lt.mp h2).trans (le_max_right _ _)⟩
  · exact ⟨min_le_right _ _, le_max_right _ _⟩
  · exact ⟨(min_le_right _ _).trans (not_lt.mp h4), le_trans (by linarith) (le_max_left _ _)⟩
  · exact ⟨min_le_left _ _, le_max_left _ _⟩

theorem envTarget_mem (p : Params F) : (0 : F) ≤ envTarget p ∧ envTarget p ≤ 1 := by
  unfold envTarget
  split_ifs <;> norm_num

end Envelope


/-! ## C3: the envelope stays in `[0, 1]` and moves toward its target -/

section ClaimC3

variable {F : Type} [LinearOrderedField F] [FloorRing F] {R : Type}

end ClaimC3


/-! ## C4: the envelope ramp in closed form -/

section ClaimC4

variable {F : Type} [LinearOrderedField F] [FloorRing F] {R : Type}

theorem stepEnvelope_attack (env a r : F) (he : env ≤ 1) (ha : 0 ≤ a) :
    stepEnvelope env 1 a r = min 1 (env + a) := by
  unfold stepEnvelope
  dsimp only
  split_ifs with h1 h2 h3 h4
  · exact (min_eq_left h2.le).symm
  · exact (min_eq_right (not_lt.mp h2)).symm
  · exact absurd he (not_le.mpr h3)
  · exact absurd he (not_le.mpr h3)
  · have : env = 1 := le_antisymm he (not_lt.mp h1)
    rw [this, min_eq_left (by linarith)]

theorem stepEnvelope_release (env a r : F) (he : 0 ≤ env) (hr : 0 ≤ r) :
    stepEnvelope env 0 a r = max 0 (env - r) := by
  unfold stepEnvelope
  dsimp only
  split_ifs with h1 h2 h3 h4
  · exact absurd he (not_le.mpr h1)
  · exact absurd he (not_le.mpr h1)
  · exact (max_eq_left h4.le).symm
  · exact (max_eq_right (not_lt.mp h4)).symm
  · have : env = 0 := le_antisymm (not_lt.mp h3) he
    rw [this, max_eq_left (by linarith)]

/-- The envelope after `k` samples of one block, in closed form. -/
theorem processUpTo_envelope (m : MathEnv F R) (e : VibratoEngine F R) (b : AudioBuffer F)
    (p : Params F) (k : Nat) (h0 : 0 ≤ e.envelope) (h1 : e.envelope ≤ 1) :
    (processUpTo m e b p k).1.envelope =
      if p.triggered then min 1 (e.envelope + (k : F) / max 1 ((p.onsetMs / 1000) * e.sr))
      else max 0 (e.envelope - (k : F) / max 1 (0.015 * e.sr)) := by
  have ha := attackRate_pos p e.sr
  have hr := releaseRate_pos e.sr
  unfold attackRate at ha
  unfold releaseRate at hr
  rw [jmax_eq_max] at ha hr
  induction k with
  | zero =>
    simp only [processUpTo_zero, Nat.cast_zero, zero_div, add_zero, sub_zero]
    split_ifs
    · exact (min_eq_right h1).symm
    · exact (max_eq_right h0).symm
  | succ n ih =>
    rw [processUpTo_succ, processSample_envelope, ih, processUpTo_sr]
    unfold envTarget attackRate releaseRate
    rw [jmax_eq_max, jmax_eq_max]
    have hn : (0 : F) ≤ n := Nat.cast_nonneg n
    by_cases ht : p.triggered = true
    · simp only [ht, if_true]
      rw [stepEnvelope_attack _ _ _ (min_le_left _ _) ha.le]
      push_cast
      rw [add_div, ← add_assoc]
      rcases le_total 1 (e.envelope + (n : F) / max 1 (p.onsetMs / 1000 * e.sr)) with hc | hc
      · rw [min_eq_left hc, min_eq_left (by linarith), min_eq_left (by linarith)]
      · rw [min_eq_right hc]
    · have ht2 : p.triggered = false := by simpa using ht
      simp only [ht2, Bool.false_eq_true, if_false]
      have hnn : 0 ≤ (n : F) / max 1 (0.015 * e.sr) := by
        rw [div_eq_mul_one_div]
        exact mul_nonneg hn hr.le
      rw [stepEnvelope_release _ _ _ (le_max_left _ _) hr.le]
      push_cast
      rw [add_div, ← sub_sub]
      rcases le_total (e.envelope - (n : F) / max 1 (0.015 * e.sr)) 0 with hc | hc
      · rw [max_eq_left hc, max_eq_left (by linarith), max_eq_left (by linarith)]
      · rw [max_eq_right hc]

/-- C4. With the trigger constant over a block, the envelope after `k` samples
from a value in `[0, 1]` is `min 1 (e0 + k / max 1 (onsetMs / 1000 * sr))` when
triggered and `max 0 (e0 - k / max 1 (0.015 * sr))` when not (no `onsetMs` in the
latter); and after `prepare` at 48 kHz with `triggered`, `onsetMs = 10` the envelope
never exceeds 1, is at least 0.99 from the 476th sample on, and is 1 at the 480th. -/
theorem envelope_closed_form (m : MathEnv F R) (e : VibratoEngine F R) (b : AudioBuffer F)
    (p : Params F) (k : Nat) (h0 : 0 ≤ e.envelope) (h1 : e.envelope ≤ 1) :
    ((processUpTo m e b p k).1.envelope =
      if p.triggered then min 1 (e.envelope + (k : F) / max 1 ((p.onsetMs / 1000) * e.sr))
      else max 0 (e.envelope - (k : F) / max 1 (0.015 * e.sr))) ∧
    (p.triggered = true → p.onsetMs = 10 →
      (processUpTo m (prepare e 48000) b p k).1.envelope ≤ 1 ∧
      (476 ≤ k → 0.99 ≤ (processUpTo m (prepare e 48000) b p k).1.envelope) ∧
      (processUpTo m (prepare e 48000) b p 480).1.envelope = 1) := by
  refine ⟨processUpTo_envelope m e b p k h0 h1, ?_⟩
  intro ht ho
  have hp0 : (0 : F) ≤ (prepare e 48000).envelope := le_refl _
  have hp1 : (prepare e 48000).envelope ≤ 1 := zero_le_one
  have hsr : (prepare e 48000).sr = 48000 := rfl
  have henv : (prepare e 48000).envelope = 0 := rfl
  have hmax : max (1 : F) (10 / 1000 * 48000) = 480 := by norm_num
  rw [processUpTo_envelope m _ b p k hp0 hp1, processUpTo_envelope m _ b p 480 hp0 hp1]
  simp only [ht, if_true, ho, hsr, henv, hmax, zero_add]
  refine ⟨min_le_left _ _, ?_, ?_⟩
  · intro hk
    have hk2 : (476 : F) ≤ k := by exact_mod_cast hk
    refine le_min (by norm_num) ?_
    rw [le_div_iff₀ (by norm_num)]
    linarith
  · norm_num

/-- Witness for C4: eight samples of attack at 48 kHz with `onsetMs = 10`. -/
theorem envelope_closed_form_witness :
    (0 : ℚ) ≤ (prepare (VibratoEngine.init 42 : VibratoEngine ℚ Nat) 48000).envelope ∧
    (prepare (VibratoEngine.init 42 : VibratoEngine ℚ Nat) 48000).envelope ≤ 1 ∧
    (processUpTo ratEnv (prepare (VibratoEngine.init 42) 48000) ⟨2, 8, fun _ _ => 1⟩
      { (Params.default : Params ℚ) with triggered := true, onsetMs := 10 } 8).1.envelope
      = 1 / 60 := by
  refine ⟨le_refl _, zero_le_one, ?_⟩
  rw [(envelope_closed_form ratEnv (prepare (VibratoEngine.init 42) 48000)
    ⟨2, 8, fun _ _ => 1⟩ { (Params.default : Params ℚ) with triggered := true, onsetMs := 10 }
    8 (le_refl _) zero_le_one).1]
  have hsr : (prepare (VibratoEngine.init 42 : VibratoEngine ℚ Nat) 48000).sr = 48000 := rfl
  have henv : (prepare (VibratoEngine.init 42 : VibratoEngine ℚ Nat) 48000).envelope = 0 := rfl
  simp only [hsr, henv]
  norm_num

end ClaimC4


/-! ## C5: what `reset` zeroes -/

section ClaimC5

variable {F : Type} [LinearOrderedField F] [FloorRing F] {R : Type}

/-- C5, counterexample. `reset` does not zero the derived filter coefficients: an
engine whose first filter has `a1 = 1 / (1 + g * (g + 1/2))` with `g = 71/1808` still
has that nonzero `a1` after `reset`. -/
theorem reset_leaves_coefficients :
    ((reset staleEngine).formantFilters 0 0).a1 = (staleEngine.formantFilters 0 0).a1 ∧
    ((reset staleEngine).formantFilters 0 0).a1 ≠ 0 := by
  have h : ((reset staleEngine).formantFilters 0 0).a1 =
      (staleEngine.formantFilters 0 0).a1 := by
    simp [reset, SVFilter.resetState, MAX_CHANNELS, NUM_FORMANTS]
  refine ⟨h, ?_⟩
  rw [h]
  simp only [staleEngine, SVFilter.setParams, ratEnv, formantBaseFreqs, jlimit]
  norm_num

/-- C5, amended. After `reset` every cell of `delayBuf` of both channels is zero,
`writePos`, `lfoPhase`, `envelope`, `variationSmoothed`, `variationTarget`,
`variationCountdown` and `formantUpdateCounter` are zero, and both state registers
of each of the 2x3 filters are zero, whatever the state was; the filter
coefficients `a1`, `a2`, `a3`, the stored sample rate and the generator state are
unchanged. `prepare` stores the sample rate and then does the same. -/
theorem reset_zeroes_state (e : VibratoEngine F R) (sampleRate : F) :
    (∀ (ch : Fin 2) (i : Fin 4096), (reset e).delayBuf ch ((i : Nat) : Int) = 0) ∧
    (reset e).writePos = 0 ∧ (reset e).lfoPhase = 0 ∧ (reset e).envelope = 0 ∧
    (reset e).variationSmoothed = 0 ∧ (reset e).variationTarget = 0 ∧
    (reset e).variationCountdown = 0 ∧ (reset e).formantUpdateCounter = 0 ∧
    (∀ (ch : Fin 2) (f : Fin 3),
      ((reset e).formantFilters ch f).s1 = 0 ∧ ((reset e).formantFilters ch f).s2 = 0 ∧
      ((reset e).formantFilters ch f).a1 = (e.formantFilters ch f).a1 ∧
      ((reset e).formantFilters ch f).a2 = (e.formantFilters ch f).a2 ∧
      ((reset e).formantFilters ch f).a3 = (e.formantFilters ch f).a3) ∧
    (reset e).sr = e.sr ∧ (reset e).rng = e.rng ∧
    prepare e sampleRate = reset { e with sr := sampleRate } ∧
    (prepare e sampleRate).sr = sampleRate := by
  refine ⟨?_, rfl, rfl, rfl, rfl, rfl, rfl, rfl, ?_, rfl, rfl, rfl, rfl⟩
  · intro ch i
    have h1 : (ch : Nat) < MAX_CHANNELS := ch.isLt
    have h2 : (0 : Int) ≤ ((i : Nat) : Int) := Int.natCast_nonneg _
    have h3 : ((i : Nat) : Int) < DELAY_BUF_SIZE := by
      have := i.isLt
      unfold DELAY_BUF_SIZE
      omega
    simp only [reset, h1, h2, h3, and_self, if_true]
  · intro ch f
    have h1 : (ch : Nat) < MAX_CHANNELS := ch.isLt
    have h2 : (f : Nat) < NUM_FORMANTS := f.isLt
    simp only [reset, h1, h2, and_self, if_true, SVFilter.resetState]

end ClaimC5


/-! ## C6: the read position and the four tap indices of `readDelay` -/

section ClaimC6

variable {F : Type} [LinearOrderedField F] [FloorRing F] {R : Type}

theorem maskIndex_mem (x : Int) : 0 ≤ maskIndex x ∧ maskIndex x ≤ 4095 := by
  unfold maskIndex DELAY_BUF_SIZE
  omega

theorem truncToInt_of_nonneg (x : F) (h : 0 ≤ x) : truncToInt x = ⌊x⌋ := by
  unfold truncToInt
  rw [if_pos h]

/-- The method `readDelay` reads exactly the four masked taps around the truncated
read position and feeds them to the interpolation polynomial. -/
theorem readDelay_eq (e : VibratoEngine F R) (ch : Nat) (d : F) :
    readDelay e ch d =
      hermite
        (e.delayBuf ch (maskIndex (truncToInt (readPosOf e.writePos d) - 1 + DELAY_BUF_SIZE)))
        (e.delayBuf ch (maskIndex (truncToInt (readPosOf e.writePos d))))
        (e.delayBuf ch (maskIndex (truncToInt (readPosOf e.writePos d) + 1)))
        (e.delayBuf ch (maskIndex (truncToInt (readPosOf e.writePos d) + 2)))
        (readPosOf e.writePos d - ((truncToInt (readPosOf e.writePos d) : Int) : F)) := rfl

theorem readPos_lt (w : Int) (d : F) (hw : w ≤ 4095) (hd : 2 ≤ d) : (w : F) - d < 4096 := by
  have : (w : F) ≤ 4095 := by exact_mod_cast hw
  linarith

end ClaimC6

/-! ## C7: the delay length is clamped and every tap lies in the written history -/

section ClaimC7

variable {F : Type} [LinearOrderedField F] [FloorRing F] {R : Type}

theorem totalDelay_mem (m : MathEnv F R) (p : Params F) (e : VibratoEngine F R) :
    2 ≤ totalDelay m p e ∧ totalDelay m p e ≤ 4092 := by
  have hc : (((DELAY_BUF_SIZE - 4 : Int) : Int) : F) = 4092 := by
    unfold DELAY_BUF_SIZE
    norm_num
  unfold totalDelay
  rw [hc]
  exact ⟨jlimit_ge _ _ _ (by norm_num), jlimit_le _ _ _ (by norm_num)⟩

/-- The truncated read position is `writePos - ⌈d⌉` up to a multiple of 4096. -/
theorem readIdx_eq (w : Int) (d : F) (hw1 : w ≤ 4095) (hd0 : 2 ≤ d) :
    truncToInt (readPosOf w d) =
      w - ⌈d⌉ - 4096 * ⌊((w : F) - d) / 4096⌋ := by
  obtain ⟨h1, _, h3⟩ := wrapReadPos_spec ((w : F) - d) (readPos_lt w d hw1 hd0)
  unfold readPosOf
  rw [truncToInt_of_nonneg _ h1, h3]
  have hcast : (4096 : F) * ((⌊((w : F) - d) / 4096⌋ : Int) : F) =
      (((4096 * ⌊((w : F) - d) / 4096⌋ : Int) : Int) : F) := by push_cast; ring
  rw [hcast, Int.floor_sub_int, sub_eq_add_neg (w : F) d, Int.floor_int_add, Int.floor_neg]
  ring

theorem ceil_mem (d : F) (hd0 : 2 ≤ d) (hd1 : d ≤ 4092) : 2 ≤ ⌈d⌉ ∧ ⌈d⌉ ≤ 4092 := by
  constructor
  · exact Int.le_ceil_iff.mpr (by push_cast; linarith)
  · exact Int.ceil_le.mpr (by exact_mod_cast hd1)


/-- For a write position in `[0, 4095]` and a delay in `[2, 4092]`, each tap index
is `(writePos - a) mod 4096` for an integer `a` in `[0, 4093]`. -/
theorem taps_in_history (w : Int) (d : F) (hw1 : w ≤ 4095) (hd0 : 2 ≤ d) (hd1 : d ≤ 4092)
    (t : Int) (ht : t ∈ tapIndices w d) :
    ∃ a : Int, 0 ≤ a ∧ a ≤ 4093 ∧ t = (w - a) % 4096 := by
  have hidx := readIdx_eq w d hw1 hd0
  obtain ⟨hc0, hc1⟩ := ceil_mem d hd0 hd1
  unfold tapIndices at ht
  simp only [List.mem_cons, List.mem_singleton, List.not_mem_nil, or_false] at ht
  rw [hidx] at ht
  unfold maskIndex DELAY_BUF_SIZE at ht
  generalize ⌊((w : F) - d) / 4096⌋ = k at ht
  generalize ⌈d⌉ = c at ht hc0 hc1
  rcases ht with h | h | h | h
  · exact ⟨c + 1, by omega, by omega, by omega⟩
  · exact ⟨c, by omega, by omega, by omega⟩
  · exact ⟨c - 1, by omega, by omega, by omega⟩
  · exact ⟨c - 2, by omega, by omega, by omega⟩

theorem updateControls_writePos (m : MathEnv F R) (p : Params F) (e : VibratoEngine F R) :
    (updateControls m p e).writePos = e.writePos := by
  unfold updateControls stepPhase stepVariation
  dsimp only
  split_ifs <;> rfl

theorem Reached.writePos_mem (m : MathEnv F R) (V : Params F → Prop) (sr : F)
    (e : VibratoEngine F R) (h : Reached m V sr e) : 0 ≤ e.writePos ∧ e.writePos ≤ 4095 := by
  refine Reached.induction m V sr (fun e => 0 ≤ e.writePos ∧ e.writePos ≤ 4095) ?_ ?_ e h
  · intro e0
    exact ⟨le_refl _, by norm_num [prepare, reset]⟩
  · intro e p nc buf i _ _
    rw [processSample_writePos]
    exact maskIndex_mem _

end ClaimC7


/-! ## C8: the LFO phase -/

section ClaimC8

variable {F : Type} [LinearOrderedField F] [FloorRing F] {R : Type}

theorem stepVariation_frame (m : MathEnv F R) (p : Params F) (e : VibratoEngine F R) :
    (stepVariation m p e).sr = e.sr ∧ (stepVariation m p e).lfoPhase = e.lfoPhase ∧
    (stepVariation m p e).envelope = e.envelope ∧
    (stepVariation m p e).writePos = e.writePos := by
  unfold stepVariation
  dsimp only
  split_ifs <;> exact ⟨rfl, rfl, rfl, rfl⟩

/-- The members the head of the sample loop sets are not touched by the rest of the
loop body. -/
theorem processSample_controls (m : MathEnv F R) (p : Params F) (nc : Nat)
    (s : VibratoEngine F R × AudioBuffer F) (i : Nat) :
    (processSample m p nc s i).1.lfoPhase = (updateControls m p s.1).lfoPhase ∧
    (processSample m p nc s i).1.envelope = (updateControls m p s.1).envelope ∧
    (processSample m p nc s i).1.rng = (updateControls m p s.1).rng ∧
    (processSample m p nc s i).1.variationSmoothed =
      (updateControls m p s.1).variationSmoothed ∧
    (processSample m p nc s i).1.variationTarget =
      (updateControls m p s.1).variationTarget ∧
    (processSample m p nc s i).1.variationCountdown =
      (updateControls m p s.1).variationCountdown := by
  have h := channelLoop_sameControls p (totalDelay m p (updateControls m p s.1))
    (ampMod m p (updateControls m p s.1)) i
    (updateFormantCoeffs m p nc (updateControls m p s.1), s.2) nc
  have h2 := updateFormantCoeffs_fields m p nc (updateControls m p s.1)
  obtain ⟨_, _, a3, a4, a5, a6, a7, a8, _⟩ := h
  obtain ⟨_, _, b3, b4, b5, b6, b7, b8, _⟩ := h2
  unfold processSample
  dsimp only at a3 a4 a5 a6 a7 a8 b3 b4 b5 b6 b7 b8 ⊢
  exact ⟨a3.trans b3, a4.trans b4, a5.trans b5, a6.trans b6, a7.trans b7, a8.trans b8⟩

theorem effectiveRate_eq (p : Params F) (e : VibratoEngine F R) :
    effectiveRate p e =
      max 0.01 (p.rateHz * (1 + e.variationSmoothed * (p.variation / 100) * 0.25)) := by
  unfold effectiveRate varAmt
  exact jmax_eq_max _ _

theorem effectiveRate_pos (p : Params F) (e : VibratoEngine F R) :
    0 < effectiveRate p e := by
  have h := jmax_ge_left (0.01 : F) (p.rateHz * (1 + e.variationSmoothed * varAmt p * 0.25))
  unfold effectiveRate
  have h2 : (0 : F) < 0.01 := by norm_num
  linarith

theorem updateControls_lfoPhase (m : MathEnv F R) (p : Params F) (e : VibratoEngine F R) :
    (updateControls m p e).lfoPhase =
      wrapPhase (e.lfoPhase + effectiveRate p (updateControls m p e) / e.sr) := by
  unfold updateControls stepPhase
  dsimp only
  rw [(stepVariation_frame m p _).1, (stepVariation_frame m p _).2.1]
  rfl

/-- One sample replaces the phase by the fractional part of the advanced phase. -/
theorem afterSample_lfoPhase (m : MathEnv F R) (p : Params F) (buf : AudioBuffer F)
    (i : Nat) (e : VibratoEngine F R) (hsr : 0 < e.sr) (h0 : 0 ≤ e.lfoPhase) :
    (afterSample m p buf i e).lfoPhase =
      Int.fract (e.lfoPhase + effectiveRate p (afterSample m p buf i e) / e.sr) := by
  have hc := processSample_controls m p (min buf.numChannels MAX_CHANNELS) (e, buf) i
  have hr : effectiveRate p (afterSample m p buf i e) =
      effectiveRate p (updateControls m p e) := by
    unfold effectiveRate afterSample
    rw [hc.2.2.2.1]
  rw [hr]
  unfold afterSample
  rw [hc.1, updateControls_lfoPhase]
  apply wrapPhase_eq_fract
  have := div_pos (effectiveRate_pos p (updateControls m p e)) hsr
  linarith

/-- C8. For a sample rate above 0, in every state the engine passes through after
`prepare` the phase `lfoPhase` lies in `[0, 1)`; and after the next processed sample,
with any snapshot, the phase-wrap loop (a total function) has left the fractional
part of `previous lfoPhase + effectiveRate / sampleRate`, again in `[0, 1)`, where
`effectiveRate = max 0.01 (rateHz * (1 + variationSmoothed * (variation/100) * 0.25))`
with the variation value of that sample. -/
theorem lfoPhase_wraps_to_fract (m : MathEnv F R) (V : Params F → Prop) (sr : F)
    (e : VibratoEngine F R) (hsr : 0 < sr) (h : Reached m V sr e) :
    (0 ≤ e.lfoPhase ∧ e.lfoPhase < 1) ∧
    ∀ (p : Params F) (buf : AudioBuffer F) (i : Nat),
      effectiveRate p (afterSample m p buf i e) =
        max 0.01 (p.rateHz *
          (1 + (afterSample m p buf i e).variationSmoothed * (p.variation / 100) * 0.25)) ∧
      (afterSample m p buf i e).lfoPhase =
        Int.fract (e.lfoPhase + effectiveRate p (afterSample m p buf i e) / sr) ∧
      0 ≤ (afterSample m p buf i e).lfoPhase ∧ (afterSample m p buf i e).lfoPhase < 1 := by
  have hinv : e.sr = sr ∧ 0 ≤ e.lfoPhase ∧ e.lfoPhase < 1 := by
    refine Reached.induction m V sr (fun e => e.sr = sr ∧ 0 ≤ e.lfoPhase ∧ e.lfoPhase < 1)
      ?_ ?_ e h
    · intro e0
      exact ⟨rfl, le_refl _, zero_lt_one⟩
    · intro e p nc buf i _ he
      obtain ⟨h1, h2, _⟩ := he
      have hc := processSample_controls m p nc (e, buf) i
      refine ⟨by rw [processSample_sr]; exact h1, ?_⟩
      rw [hc.1, updateControls_lfoPhase, wrapPhase_eq_fract]
      · exact ⟨Int.fract_nonneg _, Int.fract_lt_one _⟩
      · have := div_pos (effectiveRate_pos p (updateControls m p e)) (h1 ▸ hsr : 0 < e.sr)
        linarith
  obtain ⟨h1, h2, h3⟩ := hinv
  refine ⟨⟨h2, h3⟩, fun p buf i => ⟨effectiveRate_eq p _, ?_, ?_⟩⟩
  · rw [afterSample_lfoPhase m p buf i e (h1 ▸ hsr) h2, h1]
  · rw [afterSample_lfoPhase m p buf i e (h1 ▸ hsr) h2]
    exact ⟨Int.fract_nonneg _, Int.fract_lt_one _⟩

/-- Witness for C8: the state right after `prepare` at 48 kHz. -/
theorem lfoPhase_wraps_to_fract_witness :
    (0 : ℚ) < 48000 ∧
    Reached ratEnv (fun _ : Params ℚ => True) 48000 (prepare (VibratoEngine.init 42) 48000) ∧
    (afterSample ratEnv Params.default ⟨2, 1, fun _ _ => 1⟩ 0
        (prepare (VibratoEngine.init 42) 48000)).lfoPhase < 1 :=
  ⟨by norm_num,
    Reached.start ratEnv _ 48000 (VibratoEngine.init 42) Params.default trivial,
    ((lfoPhase_wraps_to_fract ratEnv (fun _ : Params ℚ => True) 48000
      (prepare (VibratoEngine.init 42) 48000) (by norm_num)
      (Reached.start ratEnv _ 48000 (VibratoEngine.init 42) Params.default trivial)).2
      Params.default ⟨2, 1, fun _ _ => 1⟩ 0).2.2.2⟩

end ClaimC8


/-! ## C9: the variation generator stays in `[-1, 1]` -/

section ClaimC9

variable {F : Type} [LinearOrderedField F] [FloorRing F] {R : Type}

theorem varAmt_pos_iff (p : Params F) : varAmt p > 0 ↔ 0 < p.variation := by
  unfold varAmt
  constructor
  · intro h
    by_contra hc
    have : p.variation / 100 ≤ 0 := div_nonpos_of_nonpos_of_nonneg (not_lt.mp hc) (by norm_num)
    linarith
  · intro h
    exact div_pos h (by norm_num)

/-- The variation members after the head of the sample loop are those the variation
update computes from the old ones. -/
theorem updateControls_variation (m : MathEnv F R) (p : Params F) (e : VibratoEngine F R) :
    (updateControls m p e).variationSmoothed = (stepVariation m p e).variationSmoothed ∧
    (updateControls m p e).variationTarget = (stepVariation m p e).variationTarget ∧
    (updateControls m p e).variationCountdown = (stepVariation m p e).variationCountdown ∧
    (updateControls m p e).rng = (stepVariation m p e).rng := by
  unfold updateControls stepPhase stepVariation
  dsimp only
  split_ifs <;> exact ⟨rfl, rfl, rfl, rfl⟩

/-- One variation update: the target is the old one or a fresh draw, and the
smoothed value is the stated convex combination when active, `0` when not. -/
theorem stepVariation_spec (m : MathEnv F R) (p : Params F) (e : VibratoEngine F R) :
    ((stepVariation m p e).variationTarget = e.variationTarget ∨
      (stepVariation m p e).variationTarget = (m.dist e.rng).1) ∧
    (0 < p.variation → (stepVariation m p e).variationSmoothed =
      0.998 * e.variationSmoothed + 0.002 * (stepVariation m p e).variationTarget) ∧
    (¬ 0 < p.variation → (stepVariation m p e).variationSmoothed = 0) := by
  unfold stepVariation
  dsimp only
  by_cases hv : varAmt p > 0
  · have hv2 := (varAmt_pos_iff p).mp hv
    rw [if_pos hv]
    split_ifs
    · exact ⟨Or.inr rfl, fun _ => by dsimp only; ring, fun h => absurd hv2 h⟩
    · exact ⟨Or.inl rfl, fun _ => by dsimp only; ring, fun h => absurd hv2 h⟩
  · have hv2 : ¬ 0 < p.variation := fun h => hv ((varAmt_pos_iff p).mpr h)
    rw [if_neg hv]
    exact ⟨Or.inl rfl, fun h => absurd h hv2, fun _ => rfl⟩

theorem stepVariation_mem (m : MathEnv F R) (p : Params F) (e : VibratoEngine F R)
    (hdist : ∀ r : R, -1 ≤ (m.dist r).1 ∧ (m.dist r).1 ≤ 1)
    (ht : -1 ≤ e.variationTarget ∧ e.variationTarget ≤ 1)
    (hs : -1 ≤ e.variationSmoothed ∧ e.variationSmoothed ≤ 1) :
    (-1 ≤ (stepVariation m p e).variationTarget ∧ (stepVariation m p e).variationTarget ≤ 1) ∧
    (-1 ≤ (stepVariation m p e).variationSmoothed ∧
      (stepVariation m p e).variationSmoothed ≤ 1) := by
  obtain ⟨h1, h2, h3⟩ := stepVariation_spec m p e
  have htgt : -1 ≤ (stepVariation m p e).variationTarget ∧
      (stepVariation m p e).variationTarget ≤ 1 := by
    rcases h1 with h | h
    · rw [h]; exact ht
    · rw [h]; exact hdist _
  refine ⟨htgt, ?_⟩
  by_cases hv : 0 < p.variation
  · rw [h2 hv]
    constructor <;> linarith [htgt.1, htgt.2, hs.1, hs.2]
  · rw [h3 hv]
    constructor <;> norm_num

theorem ratEnv_dist_mem (r : Nat) : -1 ≤ (ratEnv.dist r).1 ∧ (ratEnv.dist r).1 ≤ 1 := by
  have h : (r * 7919 + 13) % 201 < 201 := Nat.mod_lt _ (by norm_num)
  have h2 : (((r * 7919 + 13) % 201 : Nat) : ℚ) ≤ 200 := by
    exact_mod_cast Nat.lt_succ_iff.mp h
  have h3 : (0 : ℚ) ≤ (((r * 7919 + 13) % 201 : Nat) : ℚ) := Nat.cast_nonneg _
  simp only [ratEnv]
  constructor <;> linarith

end ClaimC9


/-! ## C10: the tremolo gain -/

section ClaimC10

variable {F : Type} [LinearOrderedField F] [FloorRing F] {R : Type}

/-- The shared modulation waveform is always clamped to `[-1, 1]`. -/
theorem lfo_mem (m : MathEnv F R) (p : Params F) (e : VibratoEngine F R) :
    -1 ≤ lfo m p e ∧ lfo m p e ≤ 1 := by
  unfold lfo
  exact ⟨jlimit_ge _ _ _ (by norm_num), jlimit_le _ _ _ (by norm_num)⟩

/-- C10. For `amplitude` in `[0, 100]` and `envelope` in `[0, 1]`, with the clamped
LFO value `lfo` (always in `[-1, 1]`), the tremolo gain
`ampMod = 1 - (amplitude/100) * envelope * (1 - lfo) * 0.5` satisfies
`1 - (amplitude/100) * envelope ≤ ampMod ≤ 1`, equals `1` when `lfo = 1` and
`1 - (amplitude/100) * envelope` when `lfo = -1`, lies in `[0, 1]`, and multiplying a
sample by it neither raises its magnitude nor flips its sign. -/
theorem ampMod_bounds (m : MathEnv F R) (p : Params F) (e : VibratoEngine F R)
    (hA0 : 0 ≤ p.amplitude) (hA1 : p.amplitude ≤ 100)
    (hE0 : 0 ≤ e.envelope) (hE1 : e.envelope ≤ 1) :
    (-1 ≤ lfo m p e ∧ lfo m p e ≤ 1) ∧
    ampMod m p e = 1 - (p.amplitude / 100) * e.envelope * (1 - lfo m p e) * 0.5 ∧
    (1 - (p.amplitude / 100) * e.envelope ≤ ampMod m p e ∧ ampMod m p e ≤ 1) ∧
    (lfo m p e = 1 → ampMod m p e = 1) ∧
    (lfo m p e = -1 → ampMod m p e = 1 - (p.amplitude / 100) * e.envelope) ∧
    (0 ≤ ampMod m p e ∧ ampMod m p e ≤ 1) ∧
    ∀ x : F, |x * ampMod m p e| ≤ |x| ∧ (0 ≤ x → 0 ≤ x * ampMod m p e) ∧
      (x ≤ 0 → x * ampMod m p e ≤ 0) := by
  obtain ⟨hl0, hl1⟩ := lfo_mem m p e
  have hdef : ampMod m p e = 1 - (p.amplitude / 100) * e.envelope * (1 - lfo m p e) * 0.5 := rfl
  have hD0 : 0 ≤ p.amplitude / 100 := div_nonneg hA0 (by norm_num)
  have hD1 : p.amplitude / 100 ≤ 1 := by
    rw [div_le_one (by norm_num)]; exact hA1
  have hDE0 : 0 ≤ p.amplitude / 100 * e.envelope := mul_nonneg hD0 hE0
  have hDE1 : p.amplitude / 100 * e.envelope ≤ 1 := by
    calc p.amplitude / 100 * e.envelope ≤ 1 * 1 := mul_le_mul hD1 hE1 hE0 zero_le_one
      _ = 1 := one_mul 1
  have hlo : 1 - (p.amplitude / 100) * e.envelope ≤ ampMod m p e := by
    rw [hdef]
    nlinarith [mul_nonneg hDE0 (by linarith : (0 : F) ≤ 1 + lfo m p e)]
  have hhi : ampMod m p e ≤ 1 := by
    rw [hdef]
    nlinarith [mul_nonneg hDE0 (by linarith : (0 : F) ≤ 1 - lfo m p e)]
  have h0 : 0 ≤ ampMod m p e := by linarith
  refine ⟨⟨hl0, hl1⟩, hdef, ⟨hlo, hhi⟩, ?_, ?_, ⟨h0, hhi⟩, ?_⟩
  · intro h
    rw [hdef, h]
    ring
  · intro h
    rw [hdef, h]
    ring
  · intro x
    refine ⟨?_, fun hx => mul_nonneg hx h0, fun hx => mul_nonpos_of_nonpos_of_nonneg hx h0⟩
    rw [abs_mul, abs_of_nonneg h0]
    exact mul_le_of_le_one_right (abs_nonneg x) hhi

/-- Witness for C10: amplitude 50 %, envelope at 1 right after a triggered block
has ramped up, here set directly in the constructed engine. -/
theorem ampMod_bounds_witness :
    (0 : ℚ) ≤ 50 ∧ (50 : ℚ) ≤ 100 ∧ (0 : ℚ) ≤ 1 ∧ (1 : ℚ) ≤ 1 ∧
    ampMod ratEnv { (Params.default : Params ℚ) with amplitude := 50 }
      { (VibratoEngine.init 42 : VibratoEngine ℚ Nat) with envelope := 1 } ≤ 1 :=
  ⟨by norm_num, by norm_num, by norm_num, by norm_num,
    (ampMod_bounds ratEnv { (Params.default : Params ℚ) with amplitude := 50 }
      { (VibratoEngine.init 42 : VibratoEngine ℚ Nat) with envelope := 1 }
      (by norm_num) (by norm_num) (by norm_num) (by norm_num)).2.2.1.2⟩

end ClaimC10


/-! ## C2: the modulated delay length without variation -/

section ClaimC2

variable {F : Type} [LinearOrderedField F] [FloorRing F] {R : Type}

theorem updateControls_envelope (m : MathEnv F R) (p : Params F) (e : VibratoEngine F R) :
    (updateControls m p e).envelope =
      stepEnvelope e.envelope (envTarget p) (attackRate p e.sr) (releaseRate e.sr) := by
  unfold updateControls stepPhase
  dsimp only
  rw [(stepVariation_frame m p _).2.2.1]

theorem updateControls_sr (m : MathEnv F R) (p : Params F) (e : VibratoEngine F R) :
    (updateControls m p e).sr = e.sr := by
  unfold updateControls stepPhase
  dsimp only
  rw [(stepVariation_frame m p _).1]

theorem stepEnvelope_mem (p : Params F) (env sr : F) (h0 : 0 ≤ env) (h1 : env ≤ 1) :
    0 ≤ stepEnvelope env (envTarget p) (attackRate p sr) (releaseRate sr) ∧
      stepEnvelope env (envTarget p) (attackRate p sr) (releaseRate sr) ≤ 1 := by
  have hb := stepEnvelope_between env (envTarget p) (attackRate p sr) (releaseRate sr)
    (attackRate_pos p sr).le (releaseRate_pos sr).le
  have ht := envTarget_mem p
  exact ⟨(le_min h0 ht.1).trans hb.1, hb.2.trans (max_le h1 ht.2)⟩

theorem Reached.envelope_mem (m : MathEnv F R) (V : Params F → Prop) (sr : F)
    (e : VibratoEngine F R) (h : Reached m V sr e) : 0 ≤ e.envelope ∧ e.envelope ≤ 1 := by
  refine Reached.induction m V sr (fun e => 0 ≤ e.envelope ∧ e.envelope ≤ 1) ?_ ?_ e h
  · intro e0
    exact ⟨le_refl _, zero_le_one⟩
  · intro e p nc buf i _ he
    rw [processSample_envelope]
    exact stepEnvelope_mem p _ _ he.1 he.2

/-- With `variation = 0` the head of the sample loop leaves `variationSmoothed = 0`. -/
theorem updateControls_variation_off (m : MathEnv F R) (p : Params F)
    (e : VibratoEngine F R) (hv : p.variation = 0) :
    (updateControls m p e).variationSmoothed = 0 := by
  rw [(updateControls_variation m p e).1]
  exact (stepVariation_spec m p e).2.2 (by rw [hv]; exact lt_irrefl 0)

/-- Clamping to `[2, 4092]` does not move a value further from 1024. -/
theorem clamp_dev (x : F) : |max 2 (min 4092 (1024 + x)) - 1024| ≤ |x| := by
  rcases le_total (1024 + x) 2 with h | h
  · rw [max_eq_left ((min_le_right _ _).trans h)]
    rw [abs_le]
    constructor
    · have := neg_abs_le x
      have hx : x ≤ -1022 := by linarith
      have : |x| = -x := abs_of_nonpos (by linarith)
      linarith
    · have := abs_nonneg x
      linarith
  · rcases le_total (1024 + x) 4092 with h2 | h2
    · rw [min_eq_right h2, max_eq_right h]
      simp
    · rw [min_eq_left h2, max_eq_right (by norm_num)]
      have : |x| = x := abs_of_nonneg (by linarith)
      rw [this, abs_of_nonneg (by norm_num)]
      linarith

end ClaimC2


section ClaimC2Real

variable {R : Type}

/-- The semitone ratio `2 ^ (100 / 1200)` is below `1.0595`. -/
theorem semitone_lt : (2 : ℝ) ^ ((100 : ℝ) / 1200) < 1.0595 := by
  by_contra hc
  have hc2 : (1.0595 : ℝ) ≤ (2 : ℝ) ^ ((100 : ℝ) / 1200) := not_lt.mp hc
  have h12 : ((2 : ℝ) ^ ((100 : ℝ) / 1200)) ^ (12 : ℕ) = 2 := by
    rw [← Real.rpow_natCast, ← Real.rpow_mul (by norm_num)]
    norm_num
  have hpow : (1.0595 : ℝ) ^ 12 ≤ ((2 : ℝ) ^ ((100 : ℝ) / 1200)) ^ 12 :=
    pow_le_pow_left₀ (by norm_num) hc2 12
  rw [h12] at hpow
  norm_num at hpow

/-- The modulation amplitude for 100 cents at 5 Hz and 48 kHz is below 91 samples. -/
theorem modAmp_semitone_lt :
    ((2 : ℝ) ^ ((100 : ℝ) / 1200) - 1) * 48000 / (2 * Real.pi * 5) < 91 := by
  have h1 := semitone_lt
  have h2 := Real.pi_gt_d4
  have hpos : (0 : ℝ) < 2 * Real.pi * 5 := by positivity
  rw [div_lt_iff₀ hpos]
  nlinarith

end ClaimC2Real


/-! ## C1: with all depths at zero the engine is a 1024-sample delay -/

section ClaimC1

variable {F : Type} [LinearOrderedField F] [FloorRing F] {R : Type}

theorem readDelay_eq_readRow (e : VibratoEngine F R) (ch : Nat) (d : F) :
    readDelay e ch d = readRow (e.delayBuf ch) e.writePos d := rfl

theorem hermite_zero (ym1 y0 y1 y2 : F) : hermite ym1 y0 y1 y2 0 = y0 := by
  unfold hermite
  ring

/-- At a delay of exactly 1024 the read returns the cell 1024 places behind the
write position. -/
theorem readRow_base (row : Int → F) (w : Int) (hw1 : w ≤ 4095) :
    readRow row w 1024 = row ((w - 1024) % 4096) := by
  have hlt : (w : F) - 1024 < 4096 := readPos_lt w 1024 hw1 (by norm_num)
  obtain ⟨h1, _, h3⟩ := wrapReadPos_spec ((w : F) - 1024) hlt
  have hcast : readPosOf w (1024 : F) =
      (((w - 1024 - 4096 * ⌊((w : F) - 1024) / 4096⌋ : Int) : Int) : F) := by
    unfold readPosOf
    rw [h3]
    push_cast
    ring
  have hidx : truncToInt (readPosOf w (1024 : F)) =
      w - 1024 - 4096 * ⌊((w : F) - 1024) / 4096⌋ := by
    rw [truncToInt_of_nonneg _ (by unfold readPosOf; exact h1), hcast, Int.floor_intCast]
  unfold readRow
  dsimp only
  rw [hidx, ← hcast, sub_self, hermite_zero]
  congr 1
  unfold maskIndex DELAY_BUF_SIZE
  omega

theorem updateControls_delayBuf (m : MathEnv F R) (p : Params F) (e : VibratoEngine F R) :
    (updateControls m p e).delayBuf = e.delayBuf := by
  unfold updateControls stepPhase stepVariation
  dsimp only
  split_ifs <;> rfl

theorem formantActive_congr (p : Params F) (a b : VibratoEngine F R)
    (h : a.envelope = b.envelope) : formantActive p a ↔ formantActive p b := by
  unfold formantActive
  rw [h]

/-- The channel loop with the formant stage skipped, in closed form: each processed
channel gets its input written at `writePos` and its output sample set to the
delayed read times the gain; nothing else changes. -/
theorem channelLoop_inactive (p : Params F) (td am : F) (i : Nat)
    (s : VibratoEngine F R × AudioBuffer F) (hin : ¬ formantActive p s.1) (nc : Nat) :
    (∀ c j, ((List.range nc).foldl (processChannel p td am i) s).1.delayBuf c j =
      if c < nc ∧ j = s.1.writePos then s.2.data c i else s.1.delayBuf c j) ∧
    (∀ c j, ((List.range nc).foldl (processChannel p td am i) s).2.data c j =
      if c < nc ∧ j = i then
        readRow (fun x => if x = s.1.writePos then s.2.data c i else s.1.delayBuf c x)
          s.1.writePos td * am
      else s.2.data c j) ∧
    ((List.range nc).foldl (processChannel p td am i) s).2.numSamples = s.2.numSamples := by
  induction nc with
  | zero =>
    refine ⟨fun c j => ?_, fun c j => ?_, rfl⟩
    · simp
    · simp
  | succ n ih =>
    obtain ⟨ih1, ih2, ih3⟩ := ih
    have hsame := channelLoop_sameControls p td am i s n
    have hwp := hsame.2.1
    have hin2 : ¬ formantActive p ((List.range n).foldl (processChannel p td am i) s).1 := by
      rw [formantActive_congr p _ s.1 hsame.2.2.2.1]
      exact hin
    rw [List.range_succ, List.foldl_append]
    simp only [List.foldl_cons, List.foldl_nil]
    generalize (List.range n).foldl (processChannel p td am i) s = r at ih1 ih2 ih3 hwp hin2
    have hin3 : ¬ formantActive p
        ({ r.1 with delayBuf := fun c j =>
            if c = n ∧ j = r.1.writePos then r.2.getSample n i else r.1.delayBuf c j } :
          VibratoEngine F R) := hin2
    unfold processChannel
    dsimp only
    rw [if_neg hin3]
    refine ⟨fun c j => ?_, fun c j => ?_, ih3⟩
    · dsimp only
      rw [ih1, hwp]
      unfold AudioBuffer.getSample
      rw [ih2]
      by_cases hc : c = n
      · subst hc
        by_cases hj : j = s.1.writePos
        · simp [hj]
        · simp [hj]
      · have hlt : c < n + 1 ↔ c < n := by omega
        simp [hc, hlt]
    · unfold AudioBuffer.setSample AudioBuffer.getSample
      dsimp only
      by_cases hc : c = n
      · subst hc
        by_cases hj : j = i
        · subst hj
          simp only [and_self, if_true, Nat.lt_succ_self]
          congr 1
          rw [readDelay_eq_readRow]
          dsimp only
          rw [hwp]
          congr 1
          funext x
          rw [ih1, ih2]
          simp
        · rw [if_neg (fun h => hj h.2), ih2]
          simp [hj]
      · rw [if_neg (fun h => hc h.1), ih2]
        have hlt : c < n + 1 ↔ c < n := by omega
        simp [hlt]


theorem updateFormantCoeffs_inactive (m : MathEnv F R) (p : Params F) (nc : Nat)
    (e : VibratoEngine F R) (h : ¬ formantActive p e) : updateFormantCoeffs m p nc e = e := by
  unfold updateFormantCoeffs
  rw [if_neg h]

/-- One pure-delay sample: each processed channel's input goes into the delay
buffer at `writePos`, and its output is the cell 1024 places behind. -/
theorem processSample_pureDelay (m : MathEnv F R) (p : Params F) (nc : Nat)
    (e : VibratoEngine F R) (buf : AudioBuffer F) (i : Nat) (hpd : PureDelay m p e)
    (hw1 : e.writePos ≤ 4095) :
    (∀ c j, (processSample m p nc (e, buf) i).1.delayBuf c j =
      if c < nc ∧ j = e.writePos then buf.data c i else e.delayBuf c j) ∧
    (∀ c j, (processSample m p nc (e, buf) i).2.data c j =
      if c < nc ∧ j = i then e.delayBuf c ((e.writePos - 1024) % 4096) else buf.data c j) ∧
    (processSample m p nc (e, buf) i).2.numSamples = buf.numSamples := by
  obtain ⟨htd, ham, hin⟩ := hpd
  have hloop := channelLoop_inactive p (1024 : F) 1 i (updateControls m p e, buf) hin nc
  have hwp := updateControls_writePos m p e
  have hdb := updateControls_delayBuf m p e
  obtain ⟨l1, l2, l3⟩ := hloop
  unfold processSample
  dsimp only at l1 l2 l3 ⊢
  rw [updateFormantCoeffs_inactive m p nc _ hin, htd, ham]
  refine ⟨fun c j => ?_, fun c j => ?_, l3⟩
  · rw [l1, hwp, hdb]
  · rw [l2, hwp, hdb]
    by_cases hc : c < nc ∧ j = i
    · rw [if_pos hc, if_pos hc, readRow_base _ _ hw1, mul_one]
      have hne : (e.writePos - 1024) % 4096 ≠ e.writePos := by omega
      rw [if_neg hne]
    · rw [if_neg hc, if_neg hc]

/-- A fresh engine holds the empty history of every stream on both channels. -/
theorem DelayHistory.prepare (e0 : VibratoEngine F R) (sr : F) (ch : Nat)
    (hch : ch < MAX_CHANNELS) (h : Nat → F) : DelayHistory (prepare e0 sr) ch h 0 := by
  refine ⟨rfl, fun k hk => absurd hk (Nat.not_lt_zero k), fun j _ hj => ?_⟩
  have h3 : ((j : Nat) : Int) < DELAY_BUF_SIZE := by
    unfold DELAY_BUF_SIZE
    omega
  simp only [Tribrato.prepare, reset, hch, Int.natCast_nonneg, h3, and_self, if_true]

/-- One pure-delay sample extends the history by the input and outputs the stream
delayed by 1024 samples. -/
theorem DelayHistory.step (m : MathEnv F R) (p : Params F) (nc : Nat)
    (e : VibratoEngine F R) (buf : AudioBuffer F) (i : Nat) (ch : Nat) (h : Nat → F)
    (n : Nat) (hpd : PureDelay m p e) (hch : ch < nc) (hH : DelayHistory e ch h n)
    (hin : buf.data ch i = h n) :
    DelayHistory (processSample m p nc (e, buf) i).1 ch h (n + 1) ∧
    (processSample m p nc (e, buf) i).2.data ch i = delayed h n ∧
    (∀ j, j ≠ i → (processSample m p nc (e, buf) i).2.data ch j = buf.data ch j) ∧
    (processSample m p nc (e, buf) i).2.numSamples = buf.numSamples := by
  obtain ⟨hw, hk, hz⟩ := hH
  have hw1 : e.writePos ≤ 4095 := by rw [hw]; omega
  obtain ⟨s1, s2, s3⟩ := processSample_pureDelay m p nc e buf i hpd hw1
  refine ⟨⟨?_, ?_, ?_⟩, ?_, ?_, s3⟩
  · rw [processSample_writePos]
    dsimp only
    rw [hw]
    unfold maskIndex DELAY_BUF_SIZE
    omega
  · intro k hk1 hk2
    rw [s1]
    by_cases hkn : k = n
    · subst hkn
      rw [if_pos ⟨hch, hw.symm⟩, hin]
    · have hne : ((k % 4096 : Nat) : Int) ≠ e.writePos := by
        rw [hw]
        omega
      rw [if_neg (fun hc => hne hc.2)]
      exact hk k (by omega) (by omega)
  · intro j hj1 hj2
    rw [s1]
    have hne : ((j : Nat) : Int) ≠ e.writePos := by
      rw [hw]
      omega
    rw [if_neg (fun hc => hne hc.2)]
    exact hz j (by omega) hj2
  · rw [s2, if_pos ⟨hch, rfl⟩, hw]
    unfold delayed
    by_cases hn : n < 1024
    · rw [if_pos hn]
      have hidx : (((n % 4096 : Nat) : Int) - 1024) % 4096 = ((n + 3072 : Nat) : Int) := by
        omega
      rw [hidx]
      exact hz (n + 3072) (by omega) (by omega)
    · rw [if_neg hn]
      have hidx : (((n % 4096 : Nat) : Int) - 1024) % 4096 =
          (((n - 1024) % 4096 : Nat) : Int) := by
        omega
      rw [hidx]
      exact hk (n - 1024) (by omega) (by omega)
  · intro j hj
    rw [s2, if_neg (fun hc => hj hc.2)]


/-- A block of pure-delay samples: after `k` samples the history has grown by `k`,
the first `k` output samples are the delayed stream and the rest of the buffer is
still the input. -/
theorem processUpTo_pureDelay (m : MathEnv F R) (p : Params F)
    (Inv : VibratoEngine F R → Prop)
    (hstep : ∀ (e : VibratoEngine F R) (nc : Nat) (buf : AudioBuffer F) (i : Nat),
      Inv e → Inv (processSample m p nc (e, buf) i).1)
    (hpd : ∀ e : VibratoEngine F R, Inv e → PureDelay m p e)
    (b : AudioBuffer F) (ch : Nat) (hch : ch < min b.numChannels MAX_CHANNELS)
    (h : Nat → F) (n : Nat) (e : VibratoEngine F R) (hI : Inv e)
    (hH : DelayHistory e ch h n) (hin : ∀ j, j < b.numSamples → b.data ch j = h (n + j))
    (k : Nat) (hk : k ≤ b.numSamples) :
    Inv (processUpTo m e b p k).1 ∧
    DelayHistory (processUpTo m e b p k).1 ch h (n + k) ∧
    (∀ j, j < k → (processUpTo m e b p k).2.data ch j = delayed h (n + j)) ∧
    (∀ j, k ≤ j → (processUpTo m e b p k).2.data ch j = b.data ch j) ∧
    (processUpTo m e b p k).2.numSamples = b.numSamples := by
  induction k with
  | zero =>
    exact ⟨hI, hH, fun j hj => absurd hj (Nat.not_lt_zero j), fun j _ => rfl, rfl⟩
  | succ k ih =>
    obtain ⟨i1, i2, i3, i4, i5⟩ := ih (by omega)
    rw [processUpTo_succ]
    have hinp : (processUpTo m e b p k).2.data ch k = h (n + k) := by
      rw [i4 k (le_refl k)]
      exact hin k (by omega)
    obtain ⟨d1, d2, d3, d4⟩ := DelayHistory.step m p (min b.numChannels MAX_CHANNELS)
      (processUpTo m e b p k).1 (processUpTo m e b p k).2 k ch h (n + k) (hpd _ i1) hch i2 hinp
    refine ⟨hstep _ _ _ _ i1, d1, ?_, ?_, d4.trans i5⟩
    · intro j hj
      by_cases hjk : j = k
      · subst hjk
        exact d2
      · have h1 := d3 j hjk
        have h2 := i3 j (by omega)
        exact h1.trans h2
    · intro j hj
      have h1 := d3 j (by omega)
      have h2 := i4 j (by omega)
      exact h1.trans h2

/-- A sequence of blocks of pure-delay samples outputs the input stream delayed by
1024 samples. -/
theorem runOutputs_pureDelay (m : MathEnv F R) (V : Params F → Prop)
    (Inv : VibratoEngine F R → Prop)
    (hstep : ∀ (e : VibratoEngine F R) (p : Params F) (nc : Nat) (buf : AudioBuffer F)
      (i : Nat), V p → Inv e → Inv (processSample m p nc (e, buf) i).1)
    (hpd : ∀ (e : VibratoEngine F R) (p : Params F), V p → Inv e → PureDelay m p e)
    (ch : Nat) (h : Nat → F) (bs : List (AudioBuffer F × Params F))
    (hV : ∀ bp ∈ bs, V bp.2)
    (hch : ∀ bp ∈ bs, ch < min bp.1.numChannels MAX_CHANNELS)
    (e : VibratoEngine F R) (n : Nat) (hI : Inv e) (hH : DelayHistory e ch h n)
    (hin : ∀ j, j < streamLength (bs.map Prod.fst) →
      streamAt (bs.map Prod.fst) ch j = h (n + j))
    (j : Nat) (hj : j < streamLength (bs.map Prod.fst)) :
    streamAt (runOutputs m e bs) ch j = delayed h (n + j) := by
  induction bs generalizing e n j with
  | nil => exact absurd hj (Nat.not_lt_zero j)
  | cons bp bs ih =>
    have hp : V bp.2 := hV bp (List.mem_cons_self _ _)
    have hc : ch < min bp.1.numChannels MAX_CHANNELS := hch bp (List.mem_cons_self _ _)
    have hblock : ∀ x, x < bp.1.numSamples → bp.1.data ch x = h (n + x) := by
      intro x hx
      have := hin x (by simp only [List.map_cons, streamLength]; omega)
      simp only [List.map_cons, streamAt, if_pos hx, AudioBuffer.getSample] at this
      exact this
    obtain ⟨b1, b2, b3, _, b5⟩ := processUpTo_pureDelay m bp.2 Inv
      (fun e nc buf i he => hstep e bp.2 nc buf i hp he) (fun e he => hpd e bp.2 hp he)
      bp.1 ch hc h n e hI hH hblock bp.1.numSamples (le_refl _)
    simp only [List.map_cons, streamLength] at hj
    simp only [runOutputs, streamAt]
    unfold process
    rw [b5]
    by_cases hjb : j < bp.1.numSamples
    · rw [if_pos hjb]
      exact b3 j hjb
    · rw [if_neg hjb]
      have hrest := ih (fun x hx => hV x (List.mem_cons_of_mem _ hx))
        (fun x hx => hch x (List.mem_cons_of_mem _ hx))
        (processUpTo m e bp.1 bp.2 bp.1.numSamples).1 (n + bp.1.numSamples) b1 b2
        (by
          intro x hx
          have := hin (bp.1.numSamples + x)
            (by simp only [List.map_cons, streamLength]; omega)
          simp only [List.map_cons, streamAt] at this
          rw [if_neg (by omega), Nat.add_sub_cancel_left] at this
          rw [this, Nat.add_assoc])
        (j - bp.1.numSamples) (by omega)
      rw [hrest]
      congr 1
      omega


/-- With `pitchCents`, `amplitude` and `formant` at zero every sample is a pure-delay
sample, whatever the state. -/
theorem pureDelay_of_zero_depth (m : MathEnv F R) (p : Params F) (e : VibratoEngine F R)
    (hp : p.pitchCents = 0) (ha : p.amplitude = 0) (hf : p.formant = 0) :
    PureDelay m p e := by
  refine ⟨?_, ?_, ?_⟩
  · have hc : (((DELAY_BUF_SIZE - 4 : Int) : Int) : F) = 4092 := by
      unfold DELAY_BUF_SIZE
      norm_num
    unfold totalDelay delayMod BASE_DELAY
    rw [if_neg (fun h => by rw [hp] at h; exact lt_irrefl 0 h.1), add_zero, hc]
    exact jlimit_of_mem _ _ _ (by norm_num) (by norm_num)
  · unfold ampMod ampDepth
    rw [ha]
    simp
  · unfold formantActive fmtDepth
    rw [hf]
    simp

/-- C1. Starting from a freshly prepared engine (any sample rate), for every
sequence of blocks whose snapshots all have `pitchCents = 0`, `amplitude = 0` and
`formant = 0` (the other parameters arbitrary) and every channel `ch` processed in
each block, the output stream at global sample index `n` is `0` for `n < 1024` and
the input stream at index `n - 1024` otherwise. -/
theorem zero_depth_is_pure_delay (m : MathEnv F R) (e0 : VibratoEngine F R) (sr : F)
    (bs : List (AudioBuffer F × Params F)) (ch : Nat)
    (hp : ∀ bp ∈ bs, bp.2.pitchCents = 0 ∧ bp.2.amplitude = 0 ∧ bp.2.formant = 0)
    (hch : ∀ bp ∈ bs, ch < min bp.1.numChannels MAX_CHANNELS)
    (n : Nat) (hn : n < streamLength (bs.map Prod.fst)) :
    streamAt (runOutputs m (prepare e0 sr) bs) ch n =
      if n < 1024 then 0 else streamAt (bs.map Prod.fst) ch (n - 1024) := by
  have hch2 : ch < MAX_CHANNELS := by
    cases bs with
    | nil => exact absurd hn (Nat.not_lt_zero n)
    | cons bp bs =>
      exact lt_of_lt_of_le (hch bp (List.mem_cons_self _ _)) (min_le_right _ _)
  have key := runOutputs_pureDelay m
    (fun p => p.pitchCents = 0 ∧ p.amplitude = 0 ∧ p.formant = 0) (fun _ => True)
    (fun _ _ _ _ _ _ _ => trivial)
    (fun e p hV _ => pureDelay_of_zero_depth m p e hV.1 hV.2.1 hV.2.2)
    ch (streamAt (bs.map Prod.fst) ch) bs hp hch (prepare e0 sr) 0 trivial
    (DelayHistory.prepare e0 sr ch hch2 _)
    (fun j _ => by rw [Nat.zero_add]) n hn
  rw [key, Nat.zero_add]
  rfl

/-- Witness for C1: one stereo block of 2000 samples `1, 2, 3, ...` at 48 kHz with
the depths at zero, the trigger on and variation at 30 %; output sample 1500 of
channel 0 is input sample 476, which is `477`. -/
theorem zero_depth_is_pure_delay_witness :
    streamAt
      (runOutputs ratEnv (prepare (VibratoEngine.init 42) 48000)
        [(⟨2, 2000, fun _ i => (i : ℚ) + 1⟩,
          { triggered := true, onsetMs := 200, rateHz := 5, pitchCents := 0, amplitude := 0,
            formant := 0, variation := 30 })]) 0 1500 = 477 := by
  rw [zero_depth_is_pure_delay ratEnv (VibratoEngine.init 42) 48000
    [(⟨2, 2000, fun _ i => (i : ℚ) + 1⟩,
      { triggered := true, onsetMs := 200, rateHz := 5, pitchCents := 0, amplitude := 0,
        formant := 0, variation := 30 })] 0
    (by simp) (by simp [MAX_CHANNELS]) 1500 (by simp [streamLength])]
  simp [streamAt, AudioBuffer.getSample]
  norm_num

end ClaimC1

/-! ## C11: no divisor is zero -/

section ClaimC11

variable {F : Type} [LinearOrderedField F] [FloorRing F] {R : Type}

/-- The filter denominator for `Q = 2` is `(g + 1/4)^2 + 15/16`. -/
theorem filter_denominator_ge (g : F) : 15 / 16 ≤ 1 + g * (g + 1 / 2) := by
  nlinarith [sq_nonneg (g + 1 / 4)]

/-- The coefficient `a1` that `setParams` stores for `Q = 2`. -/
theorem setParams_a1 (m : MathEnv F R) (flt : SVFilter F) (cutoffHz sampleRate : F) :
    (flt.setParams m cutoffHz 2 sampleRate).a1 =
      1 / (1 + m.tan (m.pi * jlimit 80 (sampleRate * 0.48) cutoffHz / sampleRate) *
        (m.tan (m.pi * jlimit 80 (sampleRate * 0.48) cutoffHz / sampleRate) + 1 / 2)) := rfl

/-- C11. For a sample rate above 0 (and a positive value of the constant pi), with
any parameter values and any filter cutoff, every divisor `process` and
`SVFilter::setParams` evaluate is nonzero: the two envelope-rate denominators are at
least 1, the sample rate dividing the phase increment and the filter argument is
nonzero, the divisor `2 pi effectiveRate` of `modAmp` is at least `2 pi 0.01` and
positive, and the filter denominator `1 + g (g + 1/Q)` with `Q = 2` is at least
`15/16` for every `g`, in particular for the `g` that `setParams` computes. -/
theorem divisors_nonzero (m : MathEnv F R) (p : Params F) (e : VibratoEngine F R)
    (flt : SVFilter F) (cutoffHz g : F) (hsr : 0 < e.sr) (hpi : 0 < m.pi) :
    (attackRate p e.sr = 1 / jmax 1 ((p.onsetMs / 1000) * e.sr) ∧
      1 ≤ jmax 1 ((p.onsetMs / 1000) * e.sr)) ∧
    (releaseRate e.sr = 1 / jmax 1 (0.015 * e.sr) ∧ 1 ≤ jmax 1 (0.015 * e.sr)) ∧
    e.sr ≠ 0 ∧
    (modAmp m p e =
        (m.pow 2 (jmax 0 (p.pitchCents * (1 + e.variationSmoothed * varAmt p * 0.15)) / 1200)
          - 1) * e.sr / (2 * m.pi * effectiveRate p e) ∧
      2 * m.pi * 0.01 ≤ 2 * m.pi * effectiveRate p e ∧
      0 < 2 * m.pi * effectiveRate p e) ∧
    ((flt.setParams m cutoffHz 2 e.sr).a1 =
        1 / (1 + m.tan (m.pi * jlimit 80 (e.sr * 0.48) cutoffHz / e.sr) *
          (m.tan (m.pi * jlimit 80 (e.sr * 0.48) cutoffHz / e.sr) + 1 / 2)) ∧
      15 / 16 ≤ 1 + m.tan (m.pi * jlimit 80 (e.sr * 0.48) cutoffHz / e.sr) *
          (m.tan (m.pi * jlimit 80 (e.sr * 0.48) cutoffHz / e.sr) + 1 / 2)) ∧
    (15 / 16 ≤ 1 + g * (g + 1 / 2) ∧ 0 < 1 + g * (g + 1 / 2)) ∧
    ((1000 : F) ≠ 0 ∧ (100 : F) ≠ 0 ∧ (1200 : F) ≠ 0 ∧ (2 : F) ≠ 0) := by
  have hER : (0.01 : F) ≤ effectiveRate p e := by
    unfold effectiveRate
    exact jmax_ge_left _ _
  have h2pi : 0 < 2 * m.pi := by linarith
  refine ⟨⟨rfl, jmax_ge_left _ _⟩, ⟨rfl, jmax_ge_left _ _⟩, ne_of_gt hsr, ⟨rfl, ?_, ?_⟩,
    ⟨rfl, filter_denominator_ge _⟩, ⟨filter_denominator_ge g, ?_⟩, ?_⟩
  · exact mul_le_mul_of_nonneg_left hER h2pi.le
  · exact mul_pos h2pi (effectiveRate_pos p e)
  · have := filter_denominator_ge g
    linarith [(by norm_num : (0 : F) < 15 / 16)]
  · exact ⟨by norm_num, by norm_num, by norm_num, by norm_num⟩

/-- Witness for C11: a prepared engine at 48 kHz with `rateHz = 0`, `onsetMs = 0`. -/
theorem divisors_nonzero_witness :
    (0 : ℚ) < (prepare (VibratoEngine.init 42 : VibratoEngine ℚ Nat) 48000).sr ∧
    (0 : ℚ) < ratEnv.pi ∧
    1 ≤ jmax (1 : ℚ) ((0 / 1000) * (prepare (VibratoEngine.init 42 : VibratoEngine ℚ Nat) 48000).sr) :=
  ⟨by norm_num [prepare, reset], by norm_num [ratEnv],
    (divisors_nonzero ratEnv
      { (Params.default : Params ℚ) with rateHz := 0, onsetMs := 0 }
      (prepare (VibratoEngine.init 42) 48000) ⟨0, 0, 0, 0, 0⟩ 600 (1 / 3)
      (by norm_num [prepare, reset]) (by norm_num [ratEnv])).1.2⟩

end ClaimC11

/-! ## C12: with variation off the smoothed value is pinned to zero -/

section ClaimC12

variable {F : Type} [LinearOrderedField F] [FloorRing F] {R : Type}

/-- With `variation = 0` the variation update draws nothing and leaves the target
and the countdown alone. -/
theorem stepVariation_off (m : MathEnv F R) (p : Params F) (e : VibratoEngine F R)
    (hv : p.variation = 0) :
    (stepVariation m p e).variationSmoothed = 0 ∧ (stepVariation m p e).rng = e.rng ∧
    (stepVariation m p e).variationTarget = e.variationTarget ∧
    (stepVariation m p e).variationCountdown = e.variationCountdown := by
  have hva : ¬ varAmt p > 0 := by
    rw [varAmt_pos_iff, hv]
    exact lt_irrefl 0
  unfold stepVariation
  rw [if_neg hva]
  exact ⟨rfl, rfl, rfl, rfl⟩

/-- C12. From any engine state, a sample processed with `variation = 0` leaves
`variationSmoothed` exactly 0, leaves the generator state, `variationTarget` and
`variationCountdown` as they were, uses `effectiveRate = max 0.01 rateHz`, and uses
as LFO value the clamp of `sin (2 pi lfoPhase)` with no skew term, which is
`sin (2 pi lfoPhase)` itself for a sine with values in `[-1, 1]`. -/
theorem variation_off_pins_zero (m : MathEnv F R) (p : Params F) (buf : AudioBuffer F)
    (i : Nat) (e : VibratoEngine F R) (hv : p.variation = 0)
    (hsin : ∀ x : F, -1 ≤ m.sin x ∧ m.sin x ≤ 1) :
    (afterSample m p buf i e).variationSmoothed = 0 ∧
    (afterSample m p buf i e).rng = e.rng ∧
    (afterSample m p buf i e).variationTarget = e.variationTarget ∧
    (afterSample m p buf i e).variationCountdown = e.variationCountdown ∧
    (updateControls m p e).variationSmoothed = 0 ∧
    effectiveRate p (updateControls m p e) = max 0.01 p.rateHz ∧
    lfo m p (updateControls m p e) =
      jlimit (-1) 1 (m.sin (2 * m.pi * (updateControls m p e).lfoPhase)) ∧
    lfo m p (updateControls m p e) = m.sin (2 * m.pi * (updateControls m p e).lfoPhase) := by
  have hc := processSample_controls m p (min buf.numChannels MAX_CHANNELS) (e, buf) i
  have hu := updateControls_variation m p e
  have hs := stepVariation_off m p e hv
  have hvs : (updateControls m p e).variationSmoothed = 0 := hu.1.trans hs.1
  have hlfo : lfo m p (updateControls m p e) =
      jlimit (-1) 1 (m.sin (2 * m.pi * (updateControls m p e).lfoPhase)) := by
    unfold lfo lfoValue
    rw [hvs, zero_mul, zero_mul, add_zero]
  unfold afterSample
  refine ⟨hc.2.2.2.1.trans hvs, hc.2.2.1.trans (hu.2.2.2.trans hs.2.1),
    hc.2.2.2.2.1.trans (hu.2.1.trans hs.2.2.1), hc.2.2.2.2.2.trans (hu.2.2.1.trans hs.2.2.2),
    hvs, ?_, hlfo, ?_⟩
  · unfold effectiveRate
    rw [hvs, zero_mul, zero_mul, add_zero, mul_one, jmax_eq_max]
  · rw [hlfo]
    exact jlimit_of_mem _ _ _ (hsin _).1 (hsin _).2

/-- Witness for C12: a state with `variationSmoothed = 1/2` left over, and a sine
stand-in with values in `[-1, 1]`. -/
theorem variation_off_pins_zero_witness :
    (afterSample ({ ratEnv with sin := fun _ => 0 } : MathEnv ℚ Nat) Params.default
      ⟨2, 1, fun _ _ => 1⟩ 0
      { (VibratoEngine.init 42 : VibratoEngine ℚ Nat) with
        variationSmoothed := 1 / 2 }).variationSmoothed = 0 :=
  (variation_off_pins_zero ({ ratEnv with sin := fun _ => 0 } : MathEnv ℚ Nat)
    Params.default ⟨2, 1, fun _ _ => 1⟩ 0
    { (VibratoEngine.init 42 : VibratoEngine ℚ Nat) with variationSmoothed := 1 / 2 }
    rfl (fun _ => ⟨by norm_num, by norm_num⟩)).1

end ClaimC12

/-! ## C13: when the variation generator draws

The countdown is reloaded with `N = static_cast<int> (sr * 0.04f)`, here
`truncToInt (sr * 0.04)` with the decimal `0.04`. The binary32 literal `0.04f` is
`5368709 / 134217728`, slightly below `0.04`, so where `sr * 0.04` is an integer the
compiled `N` is one less (1919 rather than 1920 at 48 kHz). The schedule below is
stated in terms of `N` and does not depend on its value. -/

section ClaimC13

variable {F : Type} [LinearOrderedField F] [FloorRing F] {R : Type}

/-- A property indexed by the number of samples processed so far that every sample
carries to the next index holds after `k` more samples of a block. -/
theorem processUpTo_counted (m : MathEnv F R) (Inv : Nat → VibratoEngine F R → Prop)
    (p : Params F)
    (hstep : ∀ (n : Nat) (e : VibratoEngine F R) (nc : Nat) (buf : AudioBuffer F) (i : Nat),
      Inv n e → Inv (n + 1) (processSample m p nc (e, buf) i).1)
    (e : VibratoEngine F R) (b : AudioBuffer F) (n k : Nat) (h : Inv n e) :
    Inv (n + k) (processUpTo m e b p k).1 := by
  induction k with
  | zero => exact h
  | succ k ih =>
    rw [processUpTo_succ]
    exact hstep _ _ _ _ _ ih

/-- The counted property holds after any sequence of blocks, at the index advanced
by their total length. -/
theorem runBlocks_counted (m : MathEnv F R) (V : Params F → Prop)
    (Inv : Nat → VibratoEngine F R → Prop)
    (hstep : ∀ (n : Nat) (e : VibratoEngine F R) (p : Params F) (nc : Nat)
      (buf : AudioBuffer F) (i : Nat), V p → Inv n e →
      Inv (n + 1) (processSample m p nc (e, buf) i).1)
    (bs : List (AudioBuffer F × Params F)) (hV : ∀ bp ∈ bs, V bp.2)
    (e : VibratoEngine F R) (n : Nat) (h : Inv n e) :
    Inv (n + streamLength (bs.map Prod.fst)) (runBlocks m e bs) := by
  induction bs generalizing e n with
  | nil => exact h
  | cons bp bs ih =>
    have hp : V bp.2 := hV bp (List.mem_cons_self _ _)
    have hrest : ∀ x ∈ bs, V x.2 := fun x hx => hV x (List.mem_cons_of_mem _ hx)
    have h1 := processUpTo_counted m Inv bp.2
      (fun n e nc buf i he => hstep n e bp.2 nc buf i hp he) e bp.1 n bp.1.numSamples h
    have h2 := ih hrest (processUpTo m e bp.1 bp.2 bp.1.numSamples).1 (n + bp.1.numSamples) h1
    simp only [List.map_cons, streamLength, runBlocks]
    rw [← Nat.add_assoc]
    exact h2

/-- What one variation update does to the generator, the target and the countdown,
by whether it draws. -/
theorem stepVariation_draws (m : MathEnv F R) (p : Params F) (e : VibratoEngine F R) :
    (drawsTarget p e →
      (stepVariation m p e).rng = (m.dist e.rng).2 ∧
      (stepVariation m p e).variationTarget = (m.dist e.rng).1 ∧
      (stepVariation m p e).variationCountdown = truncToInt (e.sr * 0.04)) ∧
    (¬ drawsTarget p e →
      (stepVariation m p e).rng = e.rng ∧
      (stepVariation m p e).variationTarget = e.variationTarget) ∧
    (0 < p.variation → ¬ drawsTarget p e →
      (stepVariation m p e).variationCountdown = e.variationCountdown - 1) := by
  unfold drawsTarget stepVariation
  dsimp only
  refine ⟨fun h => ?_, fun h => ?_, fun hv h => ?_⟩
  · rw [if_pos h.1, if_pos h.2]
    exact ⟨rfl, rfl, rfl⟩
  · by_cases hv : varAmt p > 0
    · have hc : ¬ e.variationCountdown - 1 ≤ 0 := fun hc => h ⟨hv, hc⟩
      rw [if_pos hv, if_neg hc]
      exact ⟨rfl, rfl⟩
    · rw [if_neg hv]
      exact ⟨rfl, rfl⟩
  · have hva := (varAmt_pos_iff p).mpr hv
    have hc : ¬ e.variationCountdown - 1 ≤ 0 := fun hc => h ⟨hva, hc⟩
    rw [if_pos hva, if_neg hc]

/-- The variation members after a whole sample are those the variation update
computes. -/
theorem processSample_variation (m : MathEnv F R) (p : Params F) (nc : Nat)
    (e : VibratoEngine F R) (buf : AudioBuffer F) (i : Nat) :
    (processSample m p nc (e, buf) i).1.rng = (stepVariation m p e).rng ∧
    (processSample m p nc (e, buf) i).1.variationTarget =
      (stepVariation m p e).variationTarget ∧
    (processSample m p nc (e, buf) i).1.variationCountdown =
      (stepVariation m p e).variationCountdown := by
  have hc := processSample_controls m p nc (e, buf) i
  have hu := updateControls_variation m p e
  exact ⟨hc.2.2.1.trans hu.2.2.2, hc.2.2.2.2.1.trans hu.2.1, hc.2.2.2.2.2.trans hu.2.2.1⟩

/-- The countdown after `n` samples with variation on, for a period `N ≥ 1`: zero
before the first sample, afterwards in `[1, N]` with `n + countdown - 1` a multiple
of `N`. -/
theorem countdown_invariant (m : MathEnv F R) (sr : F)
    (hN : 1 ≤ truncToInt (sr * 0.04)) (n : Nat) (e : VibratoEngine F R) (p : Params F)
    (nc : Nat) (buf : AudioBuffer F) (i : Nat) (hp : 0 < p.variation)
    (h : e.sr = sr ∧ ((n = 0 ∧ e.variationCountdown = 0) ∨
      (1 ≤ n ∧ 1 ≤ e.variationCountdown ∧ e.variationCountdown ≤ truncToInt (sr * 0.04) ∧
        truncToInt (sr * 0.04) ∣ ((n : Int) + e.variationCountdown - 1)))) :
    (processSample m p nc (e, buf) i).1.sr = sr ∧
    ((n + 1 = 0 ∧ (processSample m p nc (e, buf) i).1.variationCountdown = 0) ∨
      (1 ≤ n + 1 ∧ 1 ≤ (processSample m p nc (e, buf) i).1.variationCountdown ∧
        (processSample m p nc (e, buf) i).1.variationCountdown ≤ truncToInt (sr * 0.04) ∧
        truncToInt (sr * 0.04) ∣
          (((n + 1 : Nat) : Int) +
            (processSample m p nc (e, buf) i).1.variationCountdown - 1))) := by
  obtain ⟨hsr, hcd⟩ := h
  refine ⟨by rw [processSample_sr]; exact hsr, Or.inr ⟨Nat.succ_le_succ (Nat.zero_le n), ?_⟩⟩
  rw [(processSample_variation m p nc e buf i).2.2]
  obtain ⟨hd1, _, hd3⟩ := stepVariation_draws m p e
  have hva := (varAmt_pos_iff p).mpr hp
  rw [hsr] at hd1
  generalize truncToInt (sr * 0.04) = N at hN hcd hd1 ⊢
  by_cases hdraw : drawsTarget p e
  · rw [(hd1 hdraw).2.2]
    refine ⟨hN, le_refl _, ?_⟩
    rcases hcd with ⟨h0, hc0⟩ | ⟨h1, hc1, _, hdvd⟩
    · subst h0
      simp
    · have hc : e.variationCountdown = 1 := by
        have := hdraw.2
        omega
      rw [hc] at hdvd
      have : ((n + 1 : Nat) : Int) + N - 1 = ((n : Int) + 1 - 1) + N := by
        push_cast
        ring
      rw [this]
      exact dvd_add hdvd (dvd_refl N)
  · rw [hd3 hp hdraw]
    have hc : ¬ e.variationCountdown - 1 ≤ 0 := fun hc => hdraw ⟨hva, hc⟩
    rcases hcd with ⟨_, hc0⟩ | ⟨_, _, hc2, hdvd⟩
    · exact absurd (by rw [hc0]; norm_num) hc
    · refine ⟨by omega, by omega, ?_⟩
      have : ((n + 1 : Nat) : Int) + (e.variationCountdown - 1) - 1 =
          (n : Int) + e.variationCountdown - 1 := by
        push_cast
        ring
      rw [this]
      exact hdvd

end ClaimC13

/-! ## C14: the coefficient refresh counter -/

section ClaimC14

variable {F : Type} [LinearOrderedField F] [FloorRing F] {R : Type}

theorem processBandpass_coeffs (flt : SVFilter F) (x : F) :
    (flt.processBandpass x).2.coeffs = flt.coeffs := rfl

/-- The filter loop of one channel leaves every filter's coefficients alone. -/
theorem formantSum_coeffs (filters : Nat → SVFilter F) (x : F) (f : Nat) :
    ((formantSum filters x).2 f).coeffs = (filters f).coeffs := by
  unfold formantSum
  generalize (0 : F) = z
  generalize List.range NUM_FORMANTS = l
  induction l generalizing z filters with
  | nil => rfl
  | cons g l ih =>
    rw [List.foldl_cons, ih]
    dsimp only
    by_cases hf : f = g
    · rw [if_pos hf, processBandpass_coeffs, hf]
    · rw [if_neg hf]

/-- The channel body leaves every filter's coefficients alone. -/
theorem processChannel_coeffs (p : Params F) (td am : F) (i : Nat)
    (s : VibratoEngine F R × AudioBuffer F) (ch c f : Nat) :
    ((processChannel p td am i s ch).1.formantFilters c f).coeffs =
      (s.1.formantFilters c f).coeffs := by
  unfold processChannel
  dsimp only
  split_ifs with h1
  · dsimp only
    by_cases hc : c = ch
    · rw [if_pos hc, formantSum_coeffs, hc]
    · rw [if_neg hc]
  · rfl

/-- The channel loop leaves every filter's coefficients alone. -/
theorem channelLoop_coeffs (p : Params F) (td am : F) (i : Nat)
    (s : VibratoEngine F R × AudioBuffer F) (nc c f : Nat) :
    (((List.range nc).foldl (processChannel p td am i) s).1.formantFilters c f).coeffs =
      (s.1.formantFilters c f).coeffs := by
  induction nc with
  | zero => rfl
  | succ n ih =>
    rw [List.range_succ, List.foldl_append]
    simp only [List.foldl_cons, List.foldl_nil]
    rw [processChannel_coeffs, ih]

/-- With the formant stage skipped the channel loop leaves the filter bank alone. -/
theorem channelLoop_inactive_filters (p : Params F) (td am : F) (i : Nat)
    (s : VibratoEngine F R × AudioBuffer F) (hin : ¬ formantActive p s.1) (nc : Nat) :
    ((List.range nc).foldl (processChannel p td am i) s).1.formantFilters =
      s.1.formantFilters := by
  induction nc with
  | zero => rfl
  | succ n ih =>
    have hsame := channelLoop_sameControls p td am i s n
    have hin2 : ¬ formantActive p ((List.range n).foldl (processChannel p td am i) s).1 := by
      rw [formantActive_congr p _ s.1 hsame.2.2.2.1]
      exact hin
    rw [List.range_succ, List.foldl_append]
    simp only [List.foldl_cons, List.foldl_nil]
    rw [← ih]
    generalize (List.range n).foldl (processChannel p td am i) s = r at hin2
    have hin3 : ¬ formantActive p
        ({ r.1 with delayBuf := fun c j =>
            if c = n ∧ j = r.1.writePos then r.2.getSample n i else r.1.delayBuf c j } :
          VibratoEngine F R) := hin2
    unfold processChannel
    dsimp only
    rw [if_neg hin3]

theorem updateControls_counter (m : MathEnv F R) (p : Params F) (e : VibratoEngine F R) :
    (updateControls m p e).formantUpdateCounter = e.formantUpdateCounter ∧
    (updateControls m p e).formantFilters = e.formantFilters := by
  unfold updateControls stepPhase stepVariation
  dsimp only
  split_ifs <;> exact ⟨rfl, rfl⟩

/-- The refresh counter and the coefficients after a whole sample are those the
coefficient refresh leaves. -/
theorem processSample_formant (m : MathEnv F R) (p : Params F) (nc : Nat)
    (e : VibratoEngine F R) (buf : AudioBuffer F) (i : Nat) :
    (processSample m p nc (e, buf) i).1.formantUpdateCounter =
      (updateFormantCoeffs m p nc (updateControls m p e)).formantUpdateCounter ∧
    ∀ c f, ((processSample m p nc (e, buf) i).1.formantFilters c f).coeffs =
      ((updateFormantCoeffs m p nc (updateControls m p e)).formantFilters c f).coeffs := by
  have h := channelLoop_sameControls p (totalDelay m p (updateControls m p e))
    (ampMod m p (updateControls m p e)) i
    (updateFormantCoeffs m p nc (updateControls m p e), buf) nc
  refine ⟨h.2.2.2.2.2.2.2.2, fun c f => ?_⟩
  exact channelLoop_coeffs p _ _ i _ nc c f

/-- What the coefficient refresh does, by whether it is active and whether it
refreshes. -/
theorem updateFormantCoeffs_spec (m : MathEnv F R) (p : Params F) (nc : Nat)
    (u : VibratoEngine F R) :
    (¬ formantActive p u → updateFormantCoeffs m p nc u = u) ∧
    (formantActive p u → ¬ refreshesCoeffs p u →
      (updateFormantCoeffs m p nc u).formantUpdateCounter = u.formantUpdateCounter + 1 ∧
      (updateFormantCoeffs m p nc u).formantFilters = u.formantFilters) ∧
    (refreshesCoeffs p u →
      (updateFormantCoeffs m p nc u).formantUpdateCounter = 0 ∧
      ∀ c f, (updateFormantCoeffs m p nc u).formantFilters c f =
        if c < nc ∧ f < NUM_FORMANTS then
          (u.formantFilters c f).setParams m
            (formantBaseFreqs f * jmax 0.3 (1 + lfo m p u * (fmtDepth p * u.envelope) * 0.4))
            2 u.sr
        else u.formantFilters c f) := by
  unfold refreshesCoeffs updateFormantCoeffs
  dsimp only
  refine ⟨fun h => by rw [if_neg h], fun h1 h2 => ?_, fun h => ?_⟩
  · have h3 : ¬ u.formantUpdateCounter + 1 ≥ 32 := fun h3 => h2 ⟨h1, h3⟩
    rw [if_pos h1, if_neg h3]
    exact ⟨rfl, rfl⟩
  · rw [if_pos h.1, if_pos h.2]
    exact ⟨rfl, fun c f => rfl⟩

/-- The refresh counter after one sample, from a counter in `[0, 31]`: one more
modulo 32 on an active sample, unchanged otherwise. -/
theorem processSample_counter (m : MathEnv F R) (p : Params F) (nc : Nat)
    (e : VibratoEngine F R) (buf : AudioBuffer F) (i : Nat)
    (h0 : 0 ≤ e.formantUpdateCounter) (h1 : e.formantUpdateCounter ≤ 31) :
    (processSample m p nc (e, buf) i).1.formantUpdateCounter =
      if formantActive p (updateControls m p e) then (e.formantUpdateCounter + 1) % 32
      else e.formantUpdateCounter := by
  obtain ⟨s1, s2, s3⟩ := updateFormantCoeffs_spec m p nc (updateControls m p e)
  have hc := (updateControls_counter m p e).1
  rw [(processSample_formant m p nc e buf i).1]
  by_cases ha : formantActive p (updateControls m p e)
  · rw [if_pos ha]
    by_cases hr : refreshesCoeffs p (updateControls m p e)
    · rw [(s3 hr).1]
      have := hr.2
      rw [hc] at this
      omega
    · rw [(s2 ha hr).1, hc]
      have : ¬ (updateControls m p e).formantUpdateCounter + 1 ≥ 32 := fun h => hr ⟨ha, h⟩
      rw [hc] at this
      omega
  · rw [if_neg ha, s1 ha, hc]

theorem activeCount_succ (m : MathEnv F R) (p : Params F) (e : VibratoEngine F R)
    (b : AudioBuffer F) (k : Nat) :
    activeCount m p e b (k + 1) = activeCount m p e b k +
      if formantActive p (updateControls m p (processUpTo m e b p k).1) then 1 else 0 := rfl

/-- The refresh counter after `k` samples of a block counts the active samples
modulo 32. -/
theorem processUpTo_counter (m : MathEnv F R) (p : Params F) (e : VibratoEngine F R)
    (b : AudioBuffer F) (k : Nat) (a : Nat)
    (h : e.formantUpdateCounter = ((a % 32 : Nat) : Int)) :
    (processUpTo m e b p k).1.formantUpdateCounter =
      (((a + activeCount m p e b k) % 32 : Nat) : Int) := by
  induction k with
  | zero => exact h
  | succ k ih =>
    rw [processUpTo_succ, processSample_counter m p _ _ _ _ (by rw [ih]; omega)
      (by rw [ih]; omega), ih, activeCount_succ]
    split_ifs
    · omega
    · rfl

/-- The refresh counter after a sequence of blocks counts the active samples modulo
32. -/
theorem runBlocks_counter (m : MathEnv F R) (bs : List (AudioBuffer F × Params F))
    (e : VibratoEngine F R) (a : Nat)
    (h : e.formantUpdateCounter = ((a % 32 : Nat) : Int)) :
    (runBlocks m e bs).formantUpdateCounter =
      (((a + activeTotal m e bs) % 32 : Nat) : Int) := by
  induction bs generalizing e a with
  | nil => exact h
  | cons bp bs ih =>
    unfold runBlocks activeTotal
    rw [← Nat.add_assoc]
    exact ih _ _ (processUpTo_counter m bp.2 e bp.1 bp.1.numSamples a h)

/-- C14. Let `e` be the state after `prepare`, any blocks `bs` and `t` samples of a
further block, and let `a` be the number of samples so far on which the formant
stage was active. Then `formantUpdateCounter` is `a mod 32`, so in `[0, 31]`, before
and after the next sample; the next sample recomputes the coefficients exactly when
it is active and is the 32nd, 64th, ... active sample (`32` divides `a + 1`), in which
case every filter of a processed channel gets the coefficients of `setParams` and
the counter returns to 0; any other sample leaves all coefficients as they were; an
inactive sample leaves the counter and the whole filter bank (registers included)
unchanged and sets each processed channel's output to the delayed read times the
tremolo gain. -/
theorem formant_counter_and_refresh (m : MathEnv F R) (e0 : VibratoEngine F R) (sr : F)
    (bs : List (AudioBuffer F × Params F)) (b : AudioBuffer F) (p : Params F) (t : Nat)
    (buf : AudioBuffer F) (i : Nat) :
    (stateAt m e0 sr bs b p t).formantUpdateCounter =
      (((activeTotal m (prepare e0 sr) bs +
        activeCount m p (runBlocks m (prepare e0 sr) bs) b t) % 32 : Nat) : Int) ∧
    (0 ≤ (stateAt m e0 sr bs b p t).formantUpdateCounter ∧
      (stateAt m e0 sr bs b p t).formantUpdateCounter ≤ 31) ∧
    (0 ≤ (afterSample m p buf i (stateAt m e0 sr bs b p t)).formantUpdateCounter ∧
      (afterSample m p buf i (stateAt m e0 sr bs b p t)).formantUpdateCounter ≤ 31) ∧
    (refreshesCoeffs p (updateControls m p (stateAt m e0 sr bs b p t)) ↔
      formantActive p (updateControls m p (stateAt m e0 sr bs b p t)) ∧
      32 ∣ activeTotal m (prepare e0 sr) bs +
        activeCount m p (runBlocks m (prepare e0 sr) bs) b t + 1) ∧
    (refreshesCoeffs p (updateControls m p (stateAt m e0 sr bs b p t)) →
      (afterSample m p buf i (stateAt m e0 sr bs b p t)).formantUpdateCounter = 0 ∧
      ∀ c f, c < min buf.numChannels MAX_CHANNELS → f < NUM_FORMANTS →
        ((afterSample m p buf i (stateAt m e0 sr bs b p t)).formantFilters c f).coeffs =
          (((stateAt m e0 sr bs b p t).formantFilters c f).setParams m
            (formantBaseFreqs f * jmax 0.3
              (1 + lfo m p (updateControls m p (stateAt m e0 sr bs b p t)) *
                (fmtDepth p * (updateControls m p (stateAt m e0 sr bs b p t)).envelope) * 0.4))
            2 (stateAt m e0 sr bs b p t).sr).coeffs) ∧
    (¬ refreshesCoeffs p (updateControls m p (stateAt m e0 sr bs b p t)) →
      ∀ c f, ((afterSample m p buf i (stateAt m e0 sr bs b p t)).formantFilters c f).coeffs =
        ((stateAt m e0 sr bs b p t).formantFilters c f).coeffs) ∧
    (¬ formantActive p (updateControls m p (stateAt m e0 sr bs b p t)) →
      (afterSample m p buf i (stateAt m e0 sr bs b p t)).formantUpdateCounter =
        (stateAt m e0 sr bs b p t).formantUpdateCounter ∧
      (afterSample m p buf i (stateAt m e0 sr bs b p t)).formantFilters =
        (stateAt m e0 sr bs b p t).formantFilters ∧
      ∀ c, c < min buf.numChannels MAX_CHANNELS →
        (processSample m p (min buf.numChannels MAX_CHANNELS)
            (stateAt m e0 sr bs b p t, buf) i).2.data c i =
          readRow (fun x => if x = (stateAt m e0 sr bs b p t).writePos then buf.data c i
              else (stateAt m e0 sr bs b p t).delayBuf c x)
            (stateAt m e0 sr bs b p t).writePos
            (totalDelay m p (updateControls m p (stateAt m e0 sr bs b p t))) *
          ampMod m p (updateControls m p (stateAt m e0 sr bs b p t))) := by
  have hcnt : (stateAt m e0 sr bs b p t).formantUpdateCounter =
      (((activeTotal m (prepare e0 sr) bs +
        activeCount m p (runBlocks m (prepare e0 sr) bs) b t) % 32 : Nat) : Int) := by
    unfold stateAt
    have h1 := runBlocks_counter m bs (prepare e0 sr) 0 rfl
    rw [Nat.zero_add] at h1
    have h2 := processUpTo_counter m p (runBlocks m (prepare e0 sr) bs) b t
      (activeTotal m (prepare e0 sr) bs) h1
    exact h2
  generalize stateAt m e0 sr bs b p t = e at hcnt ⊢
  generalize activeTotal m (prepare e0 sr) bs +
    activeCount m p (runBlocks m (prepare e0 sr) bs) b t = a at hcnt ⊢
  have h0 : 0 ≤ e.formantUpdateCounter := by rw [hcnt]; omega
  have h1 : e.formantUpdateCounter ≤ 31 := by rw [hcnt]; omega
  have hstep := processSample_counter m p (min buf.numChannels MAX_CHANNELS) e buf i h0 h1
  have hform := processSample_formant m p (min buf.numChannels MAX_CHANNELS) e buf i
  obtain ⟨s1, s2, s3⟩ := updateFormantCoeffs_spec m p (min buf.numChannels MAX_CHANNELS)
    (updateControls m p e)
  obtain ⟨hc, hff⟩ := updateControls_counter m p e
  have hsr := updateControls_sr m p e
  refine ⟨hcnt, ⟨h0, h1⟩, ?_, ?_, ?_, ?_, ?_⟩
  · unfold afterSample
    rw [hstep]
    split_ifs <;> omega
  · unfold refreshesCoeffs
    rw [hc, hcnt]
    constructor
    · intro h
      exact ⟨h.1, by omega⟩
    · intro h
      exact ⟨h.1, by omega⟩
  · intro hr
    unfold afterSample
    refine ⟨by rw [hform.1]; exact (s3 hr).1, fun c f hcl hf => ?_⟩
    rw [hform.2, (s3 hr).2, if_pos ⟨hcl, hf⟩, hff, hsr]
  · intro hr c f
    unfold afterSample
    rw [hform.2]
    by_cases ha : formantActive p (updateControls m p e)
    · rw [(s2 ha hr).2, hff]
    · rw [s1 ha, hff]
  · intro ha
    have hloop := channelLoop_inactive p (totalDelay m p (updateControls m p e))
      (ampMod m p (updateControls m p e)) i (updateControls m p e, buf) ha
      (min buf.numChannels MAX_CHANNELS)
    have hfil := channelLoop_inactive_filters p (totalDelay m p (updateControls m p e))
      (ampMod m p (updateControls m p e)) i (updateControls m p e, buf) ha
      (min buf.numChannels MAX_CHANNELS)
    have hwp := updateControls_writePos m p e
    have hdb := updateControls_delayBuf m p e
    refine ⟨?_, ?_, fun c hcl => ?_⟩
    · unfold afterSample
      rw [hstep, if_neg ha]
    · unfold afterSample processSample
      dsimp only at hfil ⊢
      rw [s1 ha, hfil, hff]
    · unfold processSample
      dsimp only at hloop ⊢
      rw [s1 ha, hloop.2.1, if_pos ⟨hcl, rfl⟩, hwp, hdb]

end ClaimC14

/-! ## C15: an untriggered engine is a 1024-sample delay -/

section ClaimC15

variable {F : Type} [LinearOrderedField F] [FloorRing F] {R : Type}

/-- A sample on which the formant stage is skipped leaves the filter bank alone. -/
theorem processSample_inactive_filters (m : MathEnv F R) (p : Params F) (nc : Nat)
    (e : VibratoEngine F R) (buf : AudioBuffer F) (i : Nat)
    (ha : ¬ formantActive p (updateControls m p e)) :
    (processSample m p nc (e, buf) i).1.formantFilters = e.formantFilters := by
  have hfil := channelLoop_inactive_filters p (totalDelay m p (updateControls m p e))
    (ampMod m p (updateControls m p e)) i (updateControls m p e, buf) ha nc
  unfold processSample
  dsimp only at hfil ⊢
  rw [updateFormantCoeffs_inactive m p nc _ ha, hfil, (updateControls_counter m p e).2]

/-- Untriggered, an envelope at 0 stays at 0. -/
theorem updateControls_envelope_untriggered (m : MathEnv F R) (p : Params F)
    (e : VibratoEngine F R) (ht : p.triggered = false) (he : e.envelope = 0) :
    (updateControls m p e).envelope = 0 := by
  rw [updateControls_envelope, he]
  unfold stepEnvelope envTarget
  simp [ht]

/-- With the envelope at 0 after the head of the loop, the sample is a pure-delay
sample whatever the depths are. -/
theorem pureDelay_of_envelope_zero (m : MathEnv F R) (p : Params F) (e : VibratoEngine F R)
    (he : (updateControls m p e).envelope = 0) : PureDelay m p e := by
  refine ⟨?_, ?_, ?_⟩
  · have hc : (((DELAY_BUF_SIZE - 4 : Int) : Int) : F) = 4092 := by
      unfold DELAY_BUF_SIZE
      norm_num
    have hdm : delayMod m p (updateControls m p e) = 0 := by
      unfold delayMod
      rw [he]
      split_ifs
      · exact mul_zero _
      · rfl
    unfold totalDelay BASE_DELAY
    rw [hdm, add_zero, hc]
    exact jlimit_of_mem _ _ _ (by norm_num) (by norm_num)
  · unfold ampMod
    rw [he]
    simp
  · unfold formantActive
    rw [he]
    intro h
    have := h.2
    norm_num at this

/-- C15. If `triggered` is false in every block processed since `prepare`, then for
all values of `pitchCents`, `amplitude`, `formant`, `variation`, `rateHz` and
`onsetMs`: the output stream of every channel processed in each block is `0` for the
first 1024 samples and the input stream 1024 samples earlier afterwards; and in the
state after the blocks and any `t` samples of a further untriggered block the
envelope is 0, the formant stage is inactive on the next sample, and the filter
bank is as `prepare` left it. -/
theorem untriggered_is_pure_delay (m : MathEnv F R) (e0 : VibratoEngine F R) (sr : F)
    (bs : List (AudioBuffer F × Params F)) (ch : Nat)
    (ht : ∀ bp ∈ bs, bp.2.triggered = false)
    (hch : ∀ bp ∈ bs, ch < min bp.1.numChannels MAX_CHANNELS)
    (b : AudioBuffer F) (p : Params F) (t : Nat) (hp : p.triggered = false) :
    (∀ n, n < streamLength (bs.map Prod.fst) →
      streamAt (runOutputs m (prepare e0 sr) bs) ch n =
        if n < 1024 then 0 else streamAt (bs.map Prod.fst) ch (n - 1024)) ∧
    (stateAt m e0 sr bs b p t).envelope = 0 ∧
    ¬ formantActive p (updateControls m p (stateAt m e0 sr bs b p t)) ∧
    (stateAt m e0 sr bs b p t).formantFilters = (prepare e0 sr).formantFilters := by
  have hstep : ∀ (e : VibratoEngine F R) (q : Params F) (nc : Nat) (buf : AudioBuffer F)
      (i : Nat), q.triggered = false →
      (e.envelope = 0 ∧ e.formantFilters = (prepare e0 sr).formantFilters) →
      ((processSample m q nc (e, buf) i).1.envelope = 0 ∧
        (processSample m q nc (e, buf) i).1.formantFilters =
          (prepare e0 sr).formantFilters) := by
    intro e q nc buf i hq he
    have hu := updateControls_envelope_untriggered m q e hq he.1
    have hpd := pureDelay_of_envelope_zero m q e hu
    refine ⟨?_, ?_⟩
    · rw [(processSample_controls m q nc (e, buf) i).2.1]
      exact hu
    · rw [processSample_inactive_filters m q nc e buf i hpd.2.2]
      exact he.2
  have hstate : (stateAt m e0 sr bs b p t).envelope = 0 ∧
      (stateAt m e0 sr bs b p t).formantFilters = (prepare e0 sr).formantFilters := by
    unfold stateAt
    apply processUpTo_invariant m
      (fun e => e.envelope = 0 ∧ e.formantFilters = (prepare e0 sr).formantFilters) p
      (fun e nc buf i he => hstep e p nc buf i hp he)
    exact runBlocks_invariant m (fun q => q.triggered = false)
      (fun e => e.envelope = 0 ∧ e.formantFilters = (prepare e0 sr).formantFilters)
      hstep bs ht _ ⟨rfl, rfl⟩
  refine ⟨fun n hn => ?_, hstate.1, ?_, hstate.2⟩
  · have hch2 : ch < MAX_CHANNELS := by
      cases bs with
      | nil => exact absurd hn (Nat.not_lt_zero n)
      | cons bp bs =>
        exact lt_of_lt_of_le (hch bp (List.mem_cons_self _ _)) (min_le_right _ _)
    have key := runOutputs_pureDelay m (fun q => q.triggered = false)
      (fun e => e.envelope = 0)
      (fun e q nc buf i hq he => by
        show (processSample m q nc (e, buf) i).1.envelope = 0
        rw [(processSample_controls m q nc (e, buf) i).2.1]
        exact updateControls_envelope_untriggered m q e hq he)
      (fun e q hq he =>
        pureDelay_of_envelope_zero m q e (updateControls_envelope_untriggered m q e hq he))
      ch (streamAt (bs.map Prod.fst) ch) bs ht hch (prepare e0 sr) 0 rfl
      (DelayHistory.prepare e0 sr ch hch2 _)
      (fun j _ => by rw [Nat.zero_add]) n hn
    rw [key, Nat.zero_add]
    rfl
  · exact (pureDelay_of_envelope_zero m p _
      (updateControls_envelope_untriggered m p _ hp hstate.1)).2.2

/-- Witness for C15: one untriggered stereo block of 2000 samples `1, 2, 3, ...` at
48 kHz with every depth at its maximum; output sample 1500 of channel 1 is input
sample 476, which is `477`. -/
theorem untriggered_is_pure_delay_witness :
    streamAt
      (runOutputs ratEnv (prepare (VibratoEngine.init 42) 48000)
        [(⟨2, 2000, fun _ i => (i : ℚ) + 1⟩,
          { triggered := false, onsetMs := 10, rateHz := 15, pitchCents := 200,
            amplitude := 100, formant := 100, variation := 100 })]) 1 1500 = 477 := by
  rw [(untriggered_is_pure_delay ratEnv (VibratoEngine.init 42) 48000
    [(⟨2, 2000, fun _ i => (i : ℚ) + 1⟩,
      { triggered := false, onsetMs := 10, rateHz := 15, pitchCents := 200,
        amplitude := 100, formant := 100, variation := 100 })] 1
    (by simp) (by simp [MAX_CHANNELS]) ⟨2, 1, fun _ _ => 0⟩ Params.default 0 rfl).1 1500
    (by simp [streamLength])]
  simp [streamAt, AudioBuffer.getSample]
  norm_num

end ClaimC15

/-! ## C16: splitting a block does not change the result -/

section ClaimC16

variable {F : Type} [LinearOrderedField F] [FloorRing F] {R : Type}

/-- The channel body reads and writes the buffer only at the current sample index:
run on two buffers that agree there (at possibly different indices), it gives the
same engine and buffers that again agree there. -/
theorem processChannel_local (p : Params F) (td am : F) (i j : Nat)
    (s t : VibratoEngine F R × AudioBuffer F) (ch : Nat) (he : s.1 = t.1)
    (hd : ∀ c, s.2.data c i = t.2.data c j) :
    (processChannel p td am i s ch).1 = (processChannel p td am j t ch).1 ∧
    ∀ c, (processChannel p td am i s ch).2.data c i =
      (processChannel p td am j t ch).2.data c j := by
  obtain ⟨e, b⟩ := s
  obtain ⟨e2, b2⟩ := t
  dsimp only at he hd
  subst he
  unfold processChannel AudioBuffer.getSample AudioBuffer.setSample
  dsimp only
  rw [hd ch]
  split_ifs with h
  · refine ⟨rfl, fun c => ?_⟩
    dsimp only
    by_cases hc : c = ch
    · simp [hc]
    · simp [hc, hd c]
  · refine ⟨rfl, fun c => ?_⟩
    dsimp only
    by_cases hc : c = ch
    · simp [hc]
    · simp [hc, hd c]

/-- The channel body leaves the buffer alone away from the current sample index, and
keeps its length and channel count. -/
theorem processChannel_frame (p : Params F) (td am : F) (i : Nat)
    (s : VibratoEngine F R × AudioBuffer F) (ch : Nat) :
    (∀ c k, k ≠ i → (processChannel p td am i s ch).2.data c k = s.2.data c k) ∧
    (processChannel p td am i s ch).2.numSamples = s.2.numSamples ∧
    (processChannel p td am i s ch).2.numChannels = s.2.numChannels := by
  unfold processChannel AudioBuffer.setSample
  dsimp only
  split_ifs
  · exact ⟨fun c k hk => by dsimp only; rw [if_neg (fun h => hk h.2)], rfl, rfl⟩
  · exact ⟨fun c k hk => by dsimp only; rw [if_neg (fun h => hk h.2)], rfl, rfl⟩

theorem channelLoop_local (p : Params F) (td am : F) (i j : Nat)
    (s t : VibratoEngine F R × AudioBuffer F) (nc : Nat) (he : s.1 = t.1)
    (hd : ∀ c, s.2.data c i = t.2.data c j) :
    ((List.range nc).foldl (processChannel p td am i) s).1 =
      ((List.range nc).foldl (processChannel p td am j) t).1 ∧
    ∀ c, ((List.range nc).foldl (processChannel p td am i) s).2.data c i =
      ((List.range nc).foldl (processChannel p td am j) t).2.data c j := by
  induction nc with
  | zero => exact ⟨he, hd⟩
  | succ n ih =>
    rw [List.range_succ, List.foldl_append, List.foldl_append]
    simp only [List.foldl_cons, List.foldl_nil]
    exact processChannel_local p td am i j _ _ n ih.1 ih.2

theorem channelLoop_frame (p : Params F) (td am : F) (i : Nat)
    (s : VibratoEngine F R × AudioBuffer F) (nc : Nat) :
    (∀ c k, k ≠ i → ((List.range nc).foldl (processChannel p td am i) s).2.data c k =
      s.2.data c k) ∧
    ((List.range nc).foldl (processChannel p td am i) s).2.numSamples = s.2.numSamples ∧
    ((List.range nc).foldl (processChannel p td am i) s).2.numChannels = s.2.numChannels := by
  induction nc with
  | zero => exact ⟨fun _ _ _ => rfl, rfl, rfl⟩
  | succ n ih =>
    rw [List.range_succ, List.foldl_append]
    simp only [List.foldl_cons, List.foldl_nil]
    obtain ⟨f1, f2, f3⟩ := processChannel_frame p td am i
      ((List.range n).foldl (processChannel p td am i) s) n
    exact ⟨fun c k hk => (f1 c k hk).trans (ih.1 c k hk), f2.trans ih.2.1, f3.trans ih.2.2⟩

/-- The body of the sample loop is local to the current sample index. -/
theorem processSample_local (m : MathEnv F R) (p : Params F) (nc : Nat)
    (e : VibratoEngine F R) (b b2 : AudioBuffer F) (i j : Nat)
    (hd : ∀ c, b.data c i = b2.data c j) :
    (processSample m p nc (e, b) i).1 = (processSample m p nc (e, b2) j).1 ∧
    ∀ c, (processSample m p nc (e, b) i).2.data c i =
      (processSample m p nc (e, b2) j).2.data c j := by
  have h := channelLoop_local p (totalDelay m p (updateControls m p e))
    (ampMod m p (updateControls m p e)) i j
    (updateFormantCoeffs m p nc (updateControls m p e), b)
    (updateFormantCoeffs m p nc (updateControls m p e), b2) nc rfl hd
  unfold processSample
  dsimp only at h ⊢
  refine ⟨?_, h.2⟩
  rw [h.1]

theorem processSample_frame (m : MathEnv F R) (p : Params F) (nc : Nat)
    (s : VibratoEngine F R × AudioBuffer F) (i : Nat) :
    (∀ c k, k ≠ i → (processSample m p nc s i).2.data c k = s.2.data c k) ∧
    (processSample m p nc s i).2.numSamples = s.2.numSamples ∧
    (processSample m p nc s i).2.numChannels = s.2.numChannels := by
  have h := channelLoop_frame p (totalDelay m p (updateControls m p s.1))
    (ampMod m p (updateControls m p s.1)) i
    (updateFormantCoeffs m p nc (updateControls m p s.1), s.2) nc
  unfold processSample
  exact h

/-- After `k` iterations the sample loop has not touched the samples from `k` on. -/
theorem processUpTo_untouched (m : MathEnv F R) (e : VibratoEngine F R) (b : AudioBuffer F)
    (p : Params F) (k : Nat) (c j : Nat) (hj : k ≤ j) :
    (processUpTo m e b p k).2.data c j = b.data c j := by
  induction k with
  | zero => rfl
  | succ k ih =>
    rw [processUpTo_succ, (processSample_frame m p _ _ k).1 c j (by omega)]
    exact ih (by omega)

/-- While the loop is inside the first part of a joined buffer it does what it does
on the first part alone. -/
theorem processUpTo_append_left (m : MathEnv F R) (e : VibratoEngine F R)
    (x1 x2 : AudioBuffer F) (p : Params F) (k : Nat) (hk : k ≤ x1.numSamples) :
    (processUpTo m e (x1.append x2) p k).1 = (processUpTo m e x1 p k).1 ∧
    ∀ c j, j < x1.numSamples →
      (processUpTo m e (x1.append x2) p k).2.data c j = (processUpTo m e x1 p k).2.data c j := by
  induction k with
  | zero =>
    refine ⟨rfl, fun c j hj => ?_⟩
    simp only [processUpTo_zero, AudioBuffer.append, if_pos hj]
  | succ k ih =>
    obtain ⟨i1, i2⟩ := ih (by omega)
    rw [processUpTo_succ, processUpTo_succ]
    have hnc : (x1.append x2).numChannels = x1.numChannels := rfl
    rw [hnc]
    have hloc := processSample_local m p (min x1.numChannels MAX_CHANNELS)
      (processUpTo m e (x1.append x2) p k).1 (processUpTo m e (x1.append x2) p k).2
      (processUpTo m e x1 p k).2 k k (fun c => i2 c k (by omega))
    have hrw : ((processUpTo m e (x1.append x2) p k).1, (processUpTo m e x1 p k).2) =
        processUpTo m e x1 p k := by
      rw [i1]
    rw [hrw] at hloc
    refine ⟨hloc.1, fun c j hj => ?_⟩
    by_cases hjk : j = k
    · rw [hjk]
      exact hloc.2 c
    · rw [(processSample_frame m p _ _ k).1 c j hjk, (processSample_frame m p _ _ k).1 c j hjk]
      exact i2 c j hj

/-- Inside the second part of a joined buffer the loop does what it does on the
second part alone, continued from the engine the first part left. -/
theorem processUpTo_append_right (m : MathEnv F R) (e : VibratoEngine F R)
    (x1 x2 : AudioBuffer F) (p : Params F) (hc : x2.numChannels = x1.numChannels)
    (t : Nat) (ht : t ≤ x2.numSamples) :
    (processUpTo m e (x1.append x2) p (x1.numSamples + t)).1 =
      (processUpTo m (process m e x1 p).1 x2 p t).1 ∧
    (∀ c j, j < x2.numSamples →
      (processUpTo m e (x1.append x2) p (x1.numSamples + t)).2.data c (x1.numSamples + j) =
        (processUpTo m (process m e x1 p).1 x2 p t).2.data c j) ∧
    (∀ c j, j < x1.numSamples →
      (processUpTo m e (x1.append x2) p (x1.numSamples + t)).2.data c j =
        (process m e x1 p).2.data c j) := by
  induction t with
  | zero =>
    obtain ⟨l1, l2⟩ := processUpTo_append_left m e x1 x2 p x1.numSamples (le_refl _)
    refine ⟨l1, fun c j _ => ?_, l2⟩
    rw [Nat.add_zero, processUpTo_untouched m e _ p _ c _ (Nat.le_add_right _ _)]
    simp only [processUpTo_zero, AudioBuffer.append, Nat.add_sub_cancel_left]
    rw [if_neg (by omega)]
  | succ t ih =>
    obtain ⟨i1, i2, i3⟩ := ih (by omega)
    rw [← Nat.add_assoc, processUpTo_succ, processUpTo_succ]
    have hnc : (x1.append x2).numChannels = x2.numChannels := hc.symm
    rw [hnc]
    have hloc := processSample_local m p (min x2.numChannels MAX_CHANNELS)
      (processUpTo m e (x1.append x2) p (x1.numSamples + t)).1
      (processUpTo m e (x1.append x2) p (x1.numSamples + t)).2
      (processUpTo m (process m e x1 p).1 x2 p t).2 (x1.numSamples + t) t
      (fun c => i2 c t (by omega))
    have hrw : ((processUpTo m e (x1.append x2) p (x1.numSamples + t)).1,
        (processUpTo m (process m e x1 p).1 x2 p t).2) =
        processUpTo m (process m e x1 p).1 x2 p t := by
      rw [i1]
    rw [hrw] at hloc
    refine ⟨hloc.1, fun c j hj => ?_, fun c j hj => ?_⟩
    · by_cases hjt : j = t
      · rw [hjt]
        exact hloc.2 c
      · rw [(processSample_frame m p _ _ _).1 c _ (by omega),
          (processSample_frame m p _ _ _).1 c j hjt]
        exact i2 c j hj
    · rw [(processSample_frame m p _ _ _).1 c j (by omega)]
      exact i3 c j hj

/-- C16. For every engine state `e` (generator state included), every snapshot `p`
and every two buffers `x1`, `x2` with the same channel count, one call of `process`
on `x1` followed by `x2` leaves the same engine state as a call on `x1` followed by
a call on `x2`, and the same samples: those of the first call in the first
`x1.numSamples` places and those of the second call after them, on every channel. -/
theorem process_append (m : MathEnv F R) (e : VibratoEngine F R) (x1 x2 : AudioBuffer F)
    (p : Params F) (hc : x2.numChannels = x1.numChannels) :
    (process m e (x1.append x2) p).1 = (process m (process m e x1 p).1 x2 p).1 ∧
    (∀ c j, j < x1.numSamples →
      (process m e (x1.append x2) p).2.data c j = (process m e x1 p).2.data c j) ∧
    (∀ c j, j < x2.numSamples →
      (process m e (x1.append x2) p).2.data c (x1.numSamples + j) =
        (process m (process m e x1 p).1 x2 p).2.data c j) := by
  obtain ⟨h1, h2, h3⟩ := processUpTo_append_right m e x1 x2 p hc x2.numSamples (le_refl _)
  exact ⟨h1, h3, h2⟩

/-- Witness for C16: a stereo block of 3 samples followed by one of 2 samples, with
every stage of the engine switched on. -/
theorem process_append_witness :
    (⟨2, 2, fun _ i => (i : ℚ) + 4⟩ : AudioBuffer ℚ).numChannels =
      (⟨2, 3, fun _ i => (i : ℚ) + 1⟩ : AudioBuffer ℚ).numChannels ∧
    (process ratEnv (prepare (VibratoEngine.init 42) 48000)
        ((⟨2, 3, fun _ i => (i : ℚ) + 1⟩ : AudioBuffer ℚ).append ⟨2, 2, fun _ i => (i : ℚ) + 4⟩)
        { triggered := true, onsetMs := 10, rateHz := 5, pitchCents := 100, amplitude := 50,
          formant := 50, variation := 50 }).1 =
      (process ratEnv
        (process ratEnv (prepare (VibratoEngine.init 42) 48000) ⟨2, 3, fun _ i => (i : ℚ) + 1⟩
          { triggered := true, onsetMs := 10, rateHz := 5, pitchCents := 100, amplitude := 50,
            formant := 50, variation := 50 }).1
        ⟨2, 2, fun _ i => (i : ℚ) + 4⟩
        { triggered := true, onsetMs := 10, rateHz := 5, pitchCents := 100, amplitude := 50,
          formant := 50, variation := 50 }).1 :=
  ⟨rfl, (process_append ratEnv (prepare (VibratoEngine.init 42) 48000)
    ⟨2, 3, fun _ i => (i : ℚ) + 1⟩ ⟨2, 2, fun _ i => (i : ℚ) + 4⟩
    { triggered := true, onsetMs := 10, rateHz := 5, pitchCents := 100, amplitude := 50,
      formant := 50, variation := 50 } rfl).1⟩

end ClaimC16

/-! ## C17: `process` is linear in the audio -/

section ClaimC17

variable {F : Type} [LinearOrderedField F] [FloorRing F] {R : Type}

theorem hermite_linear (a b : F) (x1 x2 x3 x4 y1 y2 y3 y4 t : F) :
    hermite (a * x1 + b * y1) (a * x2 + b * y2) (a * x3 + b * y3) (a * x4 + b * y4) t =
      a * hermite x1 x2 x3 x4 t + b * hermite y1 y2 y3 y4 t := by
  unfold hermite
  ring

/-- The delayed read is linear in the row it reads. -/
theorem readRow_linear (a b : F) (rx rw rz : Int → F) (w : Int) (d : F)
    (h : ∀ j, 0 ≤ j → j < DELAY_BUF_SIZE → rz j = a * rx j + b * rw j) :
    readRow rz w d = a * readRow rx w d + b * readRow rw w d := by
  have hm : ∀ x : Int, 0 ≤ maskIndex x ∧ maskIndex x < DELAY_BUF_SIZE := by
    intro x
    have := maskIndex_mem x
    unfold DELAY_BUF_SIZE
    omega
  unfold readRow
  dsimp only
  rw [h _ (hm _).1 (hm _).2, h _ (hm _).1 (hm _).2, h _ (hm _).1 (hm _).2,
    h _ (hm _).1 (hm _).2, hermite_linear]

/-- One filter step is linear in the input and the registers. -/
theorem processBandpass_linear (a b : F) (fx fw fz : SVFilter F) (x w : F)
    (h : LinFilter a b fx fw fz) :
    (fz.processBandpass (a * x + b * w)).1 =
      a * (fx.processBandpass x).1 + b * (fw.processBandpass w).1 ∧
    LinFilter a b (fx.processBandpass x).2 (fw.processBandpass w).2
      (fz.processBandpass (a * x + b * w)).2 := by
  obtain ⟨h1, h2, h3, h4, h5, h6, h7, h8⟩ := h
  unfold SVFilter.processBandpass LinFilter
  dsimp only
  rw [h1, h2, h3, h4, h5, h6, h7, h8]
  refine ⟨by ring, rfl, rfl, rfl, rfl, rfl, rfl, by ring, by ring⟩

/-- The fold behind the filter loop is linear, from any accumulated sums. -/
theorem formantFold_linear (a b : F) (x w : F) (l : List Nat)
    (hl : ∀ g ∈ l, g < NUM_FORMANTS) (fx fw fz : Nat → SVFilter F) (sx sw sz : F)
    (h : ∀ f, f < NUM_FORMANTS → LinFilter a b (fx f) (fw f) (fz f))
    (hs : sz = a * sx + b * sw) :
    (l.foldl (fun (acc : F × (Nat → SVFilter F)) (f : Nat) =>
        let r := (acc.2 f).processBandpass (a * x + b * w)
        (acc.1 + r.1, fun g => if g = f then r.2 else acc.2 g)) (sz, fz)).1 =
      a * (l.foldl (fun (acc : F × (Nat → SVFilter F)) (f : Nat) =>
        let r := (acc.2 f).processBandpass x
        (acc.1 + r.1, fun g => if g = f then r.2 else acc.2 g)) (sx, fx)).1 +
      b * (l.foldl (fun (acc : F × (Nat → SVFilter F)) (f : Nat) =>
        let r := (acc.2 f).processBandpass w
        (acc.1 + r.1, fun g => if g = f then r.2 else acc.2 g)) (sw, fw)).1 ∧
    ∀ f, f < NUM_FORMANTS →
      LinFilter a b
        ((l.foldl (fun (acc : F × (Nat → SVFilter F)) (f : Nat) =>
          let r := (acc.2 f).processBandpass x
          (acc.1 + r.1, fun g => if g = f then r.2 else acc.2 g)) (sx, fx)).2 f)
        ((l.foldl (fun (acc : F × (Nat → SVFilter F)) (f : Nat) =>
          let r := (acc.2 f).processBandpass w
          (acc.1 + r.1, fun g => if g = f then r.2 else acc.2 g)) (sw, fw)).2 f)
        ((l.foldl (fun (acc : F × (Nat → SVFilter F)) (f : Nat) =>
          let r := (acc.2 f).processBandpass (a * x + b * w)
          (acc.1 + r.1, fun g => if g = f then r.2 else acc.2 g)) (sz, fz)).2 f) := by
  induction l generalizing fx fw fz sx sw sz with
  | nil => exact ⟨hs, h⟩
  | cons g l ih =>
    simp only [List.foldl_cons]
    have hg := hl g (List.mem_cons_self _ _)
    obtain ⟨p1, p2⟩ := processBandpass_linear a b (fx g) (fw g) (fz g) x w (h g hg)
    apply ih (fun k hk => hl k (List.mem_cons_of_mem _ hk))
    · intro f hf
      by_cases hfg : f = g
      · simp only [hfg, if_true]
        exact p2
      · simp only [hfg, if_false]
        exact h f hf
    · rw [hs, p1]
      ring

/-- The filter loop of one channel is linear in the input and the registers. -/
theorem formantSum_linear (a b : F) (fx fw fz : Nat → SVFilter F) (x w : F)
    (h : ∀ f, f < NUM_FORMANTS → LinFilter a b (fx f) (fw f) (fz f)) :
    (formantSum fz (a * x + b * w)).1 = a * (formantSum fx x).1 + b * (formantSum fw w).1 ∧
    ∀ f, f < NUM_FORMANTS →
      LinFilter a b ((formantSum fx x).2 f) ((formantSum fw w).2 f)
        ((formantSum fz (a * x + b * w)).2 f) :=
  formantFold_linear a b x w (List.range NUM_FORMANTS) (fun g hg => List.mem_range.mp hg)
    fx fw fz 0 0 0 h (by ring)

/-- The head of the sample loop computes the members that hold no audio from those
members alone. -/
theorem updateControls_congr (m : MathEnv F R) (p : Params F) (x z : VibratoEngine F R)
    (h : SameControls x z) : SameControls (updateControls m p x) (updateControls m p z) := by
  obtain ⟨h1, h2, h3, h4, h5, h6, h7, h8, h9⟩ := h
  unfold updateControls stepPhase stepVariation effectiveRate SameControls
  dsimp only
  rw [h1, h2, h3, h4, h5, h6, h7, h8, h9]
  split_ifs <;> exact ⟨rfl, rfl, rfl, rfl, rfl, rfl, rfl, rfl, rfl⟩

/-- The modulation values of a sample depend only on the members that hold no
audio. -/
theorem modulation_congr (m : MathEnv F R) (p : Params F) (x z : VibratoEngine F R)
    (h : SameControls x z) :
    lfo m p x = lfo m p z ∧ totalDelay m p x = totalDelay m p z ∧
    ampMod m p x = ampMod m p z ∧ (formantActive p x ↔ formantActive p z) ∧
    (refreshesCoeffs p x ↔ refreshesCoeffs p z) := by
  obtain ⟨h1, h2, h3, h4, h5, h6, h7, h8, h9⟩ := h
  have hl : lfo m p x = lfo m p z := by
    unfold lfo lfoValue
    rw [h3, h6]
  have hfa : formantActive p x ↔ formantActive p z := by
    unfold formantActive
    rw [h4]
  refine ⟨hl, ?_, ?_, hfa, ?_⟩
  · unfold totalDelay delayMod modAmp effectiveRate
    dsimp only
    rw [hl, h1, h4, h6]
  · unfold ampMod
    rw [hl, h4]
  · unfold refreshesCoeffs
    rw [hfa, h9]

theorem SameControls.symm {a b : VibratoEngine F R} (h : SameControls a b) :
    SameControls b a := by
  obtain ⟨a1, a2, a3, a4, a5, a6, a7, a8, a9⟩ := h
  exact ⟨a1.symm, a2.symm, a3.symm, a4.symm, a5.symm, a6.symm, a7.symm, a8.symm, a9.symm⟩

/-- The head of the sample loop keeps three engines in the linear relation. -/
theorem linEngine_updateControls (m : MathEnv F R) (p : Params F) (a b : F)
    (x w z : VibratoEngine F R) (h : LinEngine a b x w z) :
    LinEngine a b (updateControls m p x) (updateControls m p w) (updateControls m p z) := by
  obtain ⟨h1, h2, h3, h4⟩ := h
  refine ⟨updateControls_congr m p x z h1, updateControls_congr m p w z h2, ?_, ?_⟩
  · rw [updateControls_delayBuf, updateControls_delayBuf, updateControls_delayBuf]
    exact h3
  · rw [(updateControls_counter m p x).2, (updateControls_counter m p w).2,
      (updateControls_counter m p z).2]
    exact h4

/-- The coefficients `setParams` stores do not depend on the filter it is applied to,
and it keeps the registers. -/
theorem setParams_linFilter (m : MathEnv F R) (a b : F) (fx fw fz : SVFilter F)
    (cutoff Q sampleRate : F) (h : LinFilter a b fx fw fz) :
    LinFilter a b (fx.setParams m cutoff Q sampleRate) (fw.setParams m cutoff Q sampleRate)
      (fz.setParams m cutoff Q sampleRate) := by
  obtain ⟨_, _, _, _, _, _, h7, h8⟩ := h
  exact ⟨rfl, rfl, rfl, rfl, rfl, rfl, h7, h8⟩

/-- The members other than the counter and the filter bank after the coefficient
refresh, and the counter by case. -/
theorem updateFormantCoeffs_sameControls (m : MathEnv F R) (p : Params F) (nc : Nat)
    (x z : VibratoEngine F R) (h : SameControls x z) :
    SameControls (updateFormantCoeffs m p nc x) (updateFormantCoeffs m p nc z) := by
  obtain ⟨_, _, _, hfa, hrf⟩ := modulation_congr m p x z h
  obtain ⟨x1, x2, x3, x4, x5, x6, x7, x8, _⟩ := updateFormantCoeffs_fields m p nc x
  obtain ⟨z1, z2, z3, z4, z5, z6, z7, z8, _⟩ := updateFormantCoeffs_fields m p nc z
  obtain ⟨h1, h2, h3, h4, h5, h6, h7, h8, h9⟩ := h
  refine ⟨by rw [x1, z1, h1], by rw [x2, z2, h2], by rw [x3, z3, h3], by rw [x4, z4, h4],
    by rw [x5, z5, h5], by rw [x6, z6, h6], by rw [x7, z7, h7], by rw [x8, z8, h8], ?_⟩
  obtain ⟨sx1, sx2, sx3⟩ := updateFormantCoeffs_spec m p nc x
  obtain ⟨sz1, sz2, sz3⟩ := updateFormantCoeffs_spec m p nc z
  by_cases ha : formantActive p z
  · by_cases hr : refreshesCoeffs p z
    · rw [(sx3 (hrf.mpr hr)).1, (sz3 hr).1]
    · rw [(sx2 (hfa.mpr ha) (fun hx => hr (hrf.mp hx))).1, (sz2 ha hr).1, h9]
  · rw [sx1 (fun hx => ha (hfa.mp hx)), sz1 ha, h9]

/-- The coefficient refresh keeps three engines in the linear relation. -/
theorem linEngine_updateFormantCoeffs (m : MathEnv F R) (p : Params F) (nc : Nat) (a b : F)
    (x w z : VibratoEngine F R) (h : LinEngine a b x w z) :
    LinEngine a b (updateFormantCoeffs m p nc x) (updateFormantCoeffs m p nc w)
      (updateFormantCoeffs m p nc z) := by
  obtain ⟨h1, h2, h3, h4⟩ := h
  obtain ⟨lx, _, _, hfax, hrfx⟩ := modulation_congr m p x z h1
  obtain ⟨lw, _, _, hfaw, hrfw⟩ := modulation_congr m p w z h2
  refine ⟨updateFormantCoeffs_sameControls m p nc x z h1,
    updateFormantCoeffs_sameControls m p nc w z h2, ?_, ?_⟩
  · rw [(updateFormantCoeffs_fields m p nc x).2.2.2.2.2.2.2.2,
      (updateFormantCoeffs_fields m p nc w).2.2.2.2.2.2.2.2,
      (updateFormantCoeffs_fields m p nc z).2.2.2.2.2.2.2.2]
    exact h3
  · obtain ⟨sx1, sx2, sx3⟩ := updateFormantCoeffs_spec m p nc x
    obtain ⟨sw1, sw2, sw3⟩ := updateFormantCoeffs_spec m p nc w
    obtain ⟨sz1, sz2, sz3⟩ := updateFormantCoeffs_spec m p nc z
    intro c f hc hf
    by_cases ha : formantActive p z
    · by_cases hr : refreshesCoeffs p z
      · rw [(sx3 (hrfx.mpr hr)).2, (sw3 (hrfw.mpr hr)).2, (sz3 hr).2, lx, lw, h1.1, h2.1,
          h1.2.2.2.1, h2.2.2.2.1]
        by_cases hcf : c < nc ∧ f < NUM_FORMANTS
        · rw [if_pos hcf, if_pos hcf, if_pos hcf]
          exact setParams_linFilter m a b _ _ _ _ _ _ (h4 c f hc hf)
        · rw [if_neg hcf, if_neg hcf, if_neg hcf]
          exact h4 c f hc hf
      · rw [(sx2 (hfax.mpr ha) (fun hx => hr (hrfx.mp hx))).2,
          (sw2 (hfaw.mpr ha) (fun hx => hr (hrfw.mp hx))).2, (sz2 ha hr).2]
        exact h4 c f hc hf
    · rw [sx1 (fun hx => ha (hfax.mp hx)), sw1 (fun hx => ha (hfaw.mp hx)), sz1 ha]
      exact h4 c f hc hf

/-- What the channel body leaves in the delay buffer, the filter bank and the
buffer, by whether the formant stage is active. -/
theorem processChannel_spec (p : Params F) (td am : F) (i : Nat)
    (s : VibratoEngine F R × AudioBuffer F) (ch : Nat) :
    (∀ c j, (processChannel p td am i s ch).1.delayBuf c j =
      if c = ch ∧ j = s.1.writePos then s.2.data ch i else s.1.delayBuf c j) ∧
    (formantActive p s.1 →
      (∀ c f, (processChannel p td am i s ch).1.formantFilters c f =
        if c = ch then
          (formantSum (s.1.formantFilters ch)
            (readRow (fun j => if j = s.1.writePos then s.2.data ch i else s.1.delayBuf ch j)
              s.1.writePos td)).2 f
        else s.1.formantFilters c f) ∧
      ∀ c j, (processChannel p td am i s ch).2.data c j =
        if c = ch ∧ j = i then
          (readRow (fun j => if j = s.1.writePos then s.2.data ch i else s.1.delayBuf ch j)
              s.1.writePos td +
            fmtDepth p * s.1.envelope * 0.8 *
              (formantSum (s.1.formantFilters ch)
                (readRow
                  (fun j => if j = s.1.writePos then s.2.data ch i else s.1.delayBuf ch j)
                  s.1.writePos td)).1) * am
        else s.2.data c j) ∧
    (¬ formantActive p s.1 →
      (processChannel p td am i s ch).1.formantFilters = s.1.formantFilters ∧
      ∀ c j, (processChannel p td am i s ch).2.data c j =
        if c = ch ∧ j = i then
          readRow (fun j => if j = s.1.writePos then s.2.data ch i else s.1.delayBuf ch j)
            s.1.writePos td * am
        else s.2.data c j) := by
  have hrow : (fun j => if ch = ch ∧ j = s.1.writePos then s.2.data ch i
      else s.1.delayBuf ch j) =
      fun j => if j = s.1.writePos then s.2.data ch i else s.1.delayBuf ch j := by
    funext j
    simp
  have hact : ∀ db : Nat → Int → F,
      formantActive p ({ s.1 with delayBuf := db } : VibratoEngine F R) ↔
        formantActive p s.1 := fun _ => Iff.rfl
  unfold processChannel
  dsimp only
  refine ⟨?_, fun ha => ?_, fun ha => ?_⟩
  · intro c j
    by_cases ha : formantActive p s.1
    · rw [if_pos ((hact _).mpr ha)]
      rfl
    · rw [if_neg (fun h => ha ((hact _).mp h))]
      rfl
  · rw [if_pos ((hact _).mpr ha)]
    dsimp only
    rw [readDelay_eq_readRow]
    dsimp only [AudioBuffer.getSample, AudioBuffer.setSample]
    rw [hrow]
    exact ⟨fun c f => rfl, fun c j => rfl⟩
  · rw [if_neg (fun h => ha ((hact _).mp h))]
    dsimp only
    rw [readDelay_eq_readRow]
    dsimp only [AudioBuffer.getSample, AudioBuffer.setSample]
    rw [hrow]
    exact ⟨rfl, fun c j => rfl⟩

/-- The channel body keeps three runs in the linear relation. -/
theorem processChannel_linear (p : Params F) (td am : F) (i : Nat) (a b : F)
    (sx sw sz : VibratoEngine F R × AudioBuffer F) (ch : Nat) (hch : ch < MAX_CHANNELS)
    (hE : LinEngine a b sx.1 sw.1 sz.1) (hB : LinBuffer a b sx.2 sw.2 sz.2) :
    LinEngine a b (processChannel p td am i sx ch).1 (processChannel p td am i sw ch).1
      (processChannel p td am i sz ch).1 ∧
    LinBuffer a b (processChannel p td am i sx ch).2 (processChannel p td am i sw ch).2
      (processChannel p td am i sz ch).2 := by
  obtain ⟨h1, h2, h3, h4⟩ := hE
  obtain ⟨c1, c2, n1, n2, hd⟩ := hB
  obtain ⟨xd, xa, xi⟩ := processChannel_spec p td am i sx ch
  obtain ⟨wd, wa, wi⟩ := processChannel_spec p td am i sw ch
  obtain ⟨zd, za, zi⟩ := processChannel_spec p td am i sz ch
  obtain ⟨_, fx2, fx3⟩ := processChannel_frame p td am i sx ch
  obtain ⟨_, fw2, fw3⟩ := processChannel_frame p td am i sw ch
  obtain ⟨_, fz2, fz3⟩ := processChannel_frame p td am i sz ch
  have hwx : sx.1.writePos = sz.1.writePos := h1.2.1
  have hww : sw.1.writePos = sz.1.writePos := h2.2.1
  have hex : sx.1.envelope = sz.1.envelope := h1.2.2.2.1
  have hew : sw.1.envelope = sz.1.envelope := h2.2.2.2.1
  have hfax := formantActive_congr p sx.1 sz.1 hex
  have hfaw := formantActive_congr p sw.1 sz.1 hew
  have hrow : ∀ j, 0 ≤ j → j < DELAY_BUF_SIZE →
      (if j = sz.1.writePos then sz.2.data ch i else sz.1.delayBuf ch j) =
        a * (if j = sz.1.writePos then sx.2.data ch i else sx.1.delayBuf ch j) +
        b * (if j = sz.1.writePos then sw.2.data ch i else sw.1.delayBuf ch j) := by
    intro j hj0 hj1
    by_cases hj : j = sz.1.writePos
    · rw [if_pos hj, if_pos hj, if_pos hj]
      exact hd ch i
    · rw [if_neg hj, if_neg hj, if_neg hj]
      exact h3 ch j hch hj0 hj1
  have hdel := readRow_linear a b
    (fun j => if j = sz.1.writePos then sx.2.data ch i else sx.1.delayBuf ch j)
    (fun j => if j = sz.1.writePos then sw.2.data ch i else sw.1.delayBuf ch j)
    (fun j => if j = sz.1.writePos then sz.2.data ch i else sz.1.delayBuf ch j)
    sz.1.writePos td hrow
  rw [hwx] at xa xi xd
  rw [hww] at wa wi wd
  rw [hex] at xa
  rw [hew] at wa
  refine ⟨⟨(processChannel_sameControls p td am i sx ch).trans
      (h1.trans (processChannel_sameControls p td am i sz ch).symm),
    (processChannel_sameControls p td am i sw ch).trans
      (h2.trans (processChannel_sameControls p td am i sz ch).symm), ?_, ?_⟩,
    ⟨fw3.trans (c1.trans fx3.symm), fz3.trans (c2.trans fx3.symm),
      fw2.trans (n1.trans fx2.symm), fz2.trans (n2.trans fx2.symm), ?_⟩⟩
  · intro c j hc hj0 hj1
    rw [xd, wd, zd]
    by_cases hcj : c = ch ∧ j = sz.1.writePos
    · rw [if_pos hcj, if_pos hcj, if_pos hcj]
      exact hd ch i
    · rw [if_neg hcj, if_neg hcj, if_neg hcj]
      exact h3 c j hc hj0 hj1
  · intro c f hc hf
    by_cases ha : formantActive p sz.1
    · rw [(xa (hfax.mpr ha)).1, (wa (hfaw.mpr ha)).1, (za ha).1]
      by_cases hcc : c = ch
      · rw [if_pos hcc, if_pos hcc, if_pos hcc, hdel]
        exact (formantSum_linear a b _ _ _ _ _ (fun g hg => h4 ch g hch hg)).2 f hf
      · rw [if_neg hcc, if_neg hcc, if_neg hcc]
        exact h4 c f hc hf
    · rw [(xi (fun h => ha (hfax.mp h))).1, (wi (fun h => ha (hfaw.mp h))).1, (zi ha).1]
      exact h4 c f hc hf
  · intro c j
    by_cases ha : formantActive p sz.1
    · rw [(xa (hfax.mpr ha)).2, (wa (hfaw.mpr ha)).2, (za ha).2]
      by_cases hcj : c = ch ∧ j = i
      · rw [if_pos hcj, if_pos hcj, if_pos hcj, hdel,
          (formantSum_linear a b _ _ _ _ _ (fun g hg => h4 ch g hch hg)).1]
        ring
      · rw [if_neg hcj, if_neg hcj, if_neg hcj]
        exact hd c j
    · rw [(xi (fun h => ha (hfax.mp h))).2, (wi (fun h => ha (hfaw.mp h))).2, (zi ha).2]
      by_cases hcj : c = ch ∧ j = i
      · rw [if_pos hcj, if_pos hcj, if_pos hcj, hdel]
        ring
      · rw [if_neg hcj, if_neg hcj, if_neg hcj]
        exact hd c j

/-- The channel loop over at most `MAX_CHANNELS` channels keeps three runs in the
linear relation. -/
theorem channelLoop_linear (p : Params F) (td am : F) (i : Nat) (a b : F)
    (sx sw sz : VibratoEngine F R × AudioBuffer F) (nc : Nat) (hnc : nc ≤ MAX_CHANNELS)
    (hE : LinEngine a b sx.1 sw.1 sz.1) (hB : LinBuffer a b sx.2 sw.2 sz.2) :
    LinEngine a b ((List.range nc).foldl (processChannel p td am i) sx).1
      ((List.range nc).foldl (processChannel p td am i) sw).1
      ((List.range nc).foldl (processChannel p td am i) sz).1 ∧
    LinBuffer a b ((List.range nc).foldl (processChannel p td am i) sx).2
      ((List.range nc).foldl (processChannel p td am i) sw).2
      ((List.range nc).foldl (processChannel p td am i) sz).2 := by
  induction nc with
  | zero => exact ⟨hE, hB⟩
  | succ n ih =>
    obtain ⟨i1, i2⟩ := ih (by omega)
    rw [List.range_succ, List.foldl_append, List.foldl_append, List.foldl_append]
    simp only [List.foldl_cons, List.foldl_nil]
    exact processChannel_linear p td am i a b _ _ _ n (by omega) i1 i2

/-- The body of the sample loop keeps three runs in the linear relation. -/
theorem processSample_linear (m : MathEnv F R) (p : Params F) (nc : Nat) (i : Nat) (a b : F)
    (sx sw sz : VibratoEngine F R × AudioBuffer F) (hnc : nc ≤ MAX_CHANNELS)
    (hE : LinEngine a b sx.1 sw.1 sz.1) (hB : LinBuffer a b sx.2 sw.2 sz.2) :
    LinEngine a b (processSample m p nc sx i).1 (processSample m p nc sw i).1
      (processSample m p nc sz i).1 ∧
    LinBuffer a b (processSample m p nc sx i).2 (processSample m p nc sw i).2
      (processSample m p nc sz i).2 := by
  have hE1 := linEngine_updateControls m p a b _ _ _ hE
  have hE2 := linEngine_updateFormantCoeffs m p nc a b _ _ _ hE1
  obtain ⟨_, tx, ax, _, _⟩ := modulation_congr m p _ _ hE1.1
  obtain ⟨_, tw, aw, _, _⟩ := modulation_congr m p _ _ hE1.2.1
  have hloop := channelLoop_linear p (totalDelay m p (updateControls m p sz.1))
    (ampMod m p (updateControls m p sz.1)) i a b
    (updateFormantCoeffs m p nc (updateControls m p sx.1), sx.2)
    (updateFormantCoeffs m p nc (updateControls m p sw.1), sw.2)
    (updateFormantCoeffs m p nc (updateControls m p sz.1), sz.2) nc hnc hE2 hB
  unfold processSample
  dsimp only
  rw [tx, ax, tw, aw]
  obtain ⟨⟨g1, g2, g3, g4⟩, l2⟩ := hloop
  refine ⟨⟨?_, ?_, g3, g4⟩, l2⟩
  · obtain ⟨a1, a2, a3, a4, a5, a6, a7, a8, a9⟩ := g1
    exact ⟨a1, by dsimp only; rw [a2], a3, a4, a5, a6, a7, a8, a9⟩
  · obtain ⟨a1, a2, a3, a4, a5, a6, a7, a8, a9⟩ := g2
    exact ⟨a1, by dsimp only; rw [a2], a3, a4, a5, a6, a7, a8, a9⟩

/-- The sample loop keeps three runs in the linear relation. -/
theorem processUpTo_linear (m : MathEnv F R) (p : Params F) (a b : F)
    (ex ew ez : VibratoEngine F R) (bx bw bz : AudioBuffer F)
    (hE : LinEngine a b ex ew ez) (hB : LinBuffer a b bx bw bz) (k : Nat) :
    LinEngine a b (processUpTo m ex bx p k).1 (processUpTo m ew bw p k).1
      (processUpTo m ez bz p k).1 ∧
    LinBuffer a b (processUpTo m ex bx p k).2 (processUpTo m ew bw p k).2
      (processUpTo m ez bz p k).2 := by
  induction k with
  | zero => exact ⟨hE, hB⟩
  | succ k ih =>
    rw [processUpTo_succ, processUpTo_succ, processUpTo_succ, hB.1, hB.2.1]
    exact processSample_linear m p _ k a b _ _ _ (min_le_right _ _) ih.1 ih.2

/-- Runs over blocks in the linear relation give output streams in the linear
relation. -/
theorem runOutputs_linear (m : MathEnv F R) (a b : F)
    (qs : List (AudioBuffer F × AudioBuffer F × AudioBuffer F × Params F))
    (hq : ∀ q ∈ qs, LinBuffer a b q.1 q.2.1 q.2.2.1)
    (ex ew ez : VibratoEngine F R) (hE : LinEngine a b ex ew ez) (ch n : Nat) :
    streamAt (runOutputs m ez (qs.map fun q => (q.2.2.1, q.2.2.2))) ch n =
      a * streamAt (runOutputs m ex (qs.map fun q => (q.1, q.2.2.2))) ch n +
      b * streamAt (runOutputs m ew (qs.map fun q => (q.2.1, q.2.2.2))) ch n := by
  induction qs generalizing ex ew ez n with
  | nil =>
    simp only [List.map_nil, runOutputs, streamAt]
    ring
  | cons q qs ih =>
    have hB := hq q (List.mem_cons_self _ _)
    obtain ⟨l1, l2⟩ := processUpTo_linear m q.2.2.2 a b ex ew ez q.1 q.2.1 q.2.2.1 hE hB
      q.1.numSamples
    simp only [List.map_cons, runOutputs, streamAt, AudioBuffer.getSample]
    unfold process
    rw [hB.2.2.1, hB.2.2.2.1] at *
    rw [l2.2.2.1, l2.2.2.2.1]
    by_cases hn : n < (processUpTo m ex q.1 q.2.2.2 q.1.numSamples).2.numSamples
    · rw [if_pos hn, if_pos hn, if_pos hn]
      exact l2.2.2.2.2 ch n
    · rw [if_neg hn, if_neg hn, if_neg hn]
      exact ih (fun x hx => hq x (List.mem_cons_of_mem _ hx)) _ _ _ l1 _

/-- A freshly prepared engine is in the linear relation with itself for all
scalars: the audio it holds is zero. -/
theorem linEngine_prepare (a b : F) (e0 : VibratoEngine F R) (sr : F) :
    LinEngine a b (prepare e0 sr) (prepare e0 sr) (prepare e0 sr) := by
  refine ⟨SameControls.refl _, SameControls.refl _, fun c j hc hj0 hj1 => ?_,
    fun c f hc hf => ?_⟩
  · simp only [Tribrato.prepare, reset, hc, hj0, hj1, and_self, if_true]
    ring
  · simp [Tribrato.prepare, reset, hc, hf, SVFilter.resetState, LinFilter]

/-- C17. For runs started from the same prepared engine (same generator state and
filter coefficients) with the same snapshots and block shapes, the output stream for
the input `a * x + b * y` is `a` times the output for `x` plus `b` times the output
for `y`, at every channel and sample index, for all scalars `a`, `b`; and an all-zero
input gives an all-zero output for every parameter setting. -/
theorem process_linear (m : MathEnv F R) (e0 : VibratoEngine F R) (sr : F) (a b : F)
    (blocks : List (AudioBuffer F × AudioBuffer F × Params F))
    (hshape : ∀ t ∈ blocks,
      t.2.1.numChannels = t.1.numChannels ∧ t.2.1.numSamples = t.1.numSamples)
    (ch n : Nat) :
    streamAt (runOutputs m (prepare e0 sr)
        (blocks.map fun t => (AudioBuffer.lincomb a b t.1 t.2.1, t.2.2))) ch n =
      a * streamAt (runOutputs m (prepare e0 sr) (blocks.map fun t => (t.1, t.2.2))) ch n +
      b * streamAt (runOutputs m (prepare e0 sr) (blocks.map fun t => (t.2.1, t.2.2))) ch n ∧
    ((∀ t ∈ blocks, ∀ c j, t.1.data c j = 0) →
      streamAt (runOutputs m (prepare e0 sr) (blocks.map fun t => (t.1, t.2.2))) ch n = 0) := by
  constructor
  · have key := runOutputs_linear m a b
      (blocks.map fun t => (t.1, t.2.1, AudioBuffer.lincomb a b t.1 t.2.1, t.2.2))
      (by
        intro q hq
        obtain ⟨t, ht, rfl⟩ := List.mem_map.mp hq
        exact ⟨(hshape t ht).1, rfl, (hshape t ht).2, rfl, fun _ _ => rfl⟩)
      (prepare e0 sr) (prepare e0 sr) (prepare e0 sr) (linEngine_prepare a b e0 sr) ch n
    simp only [List.map_map, Function.comp] at key
    exact key
  · intro hz
    have key := runOutputs_linear m 0 0
      (blocks.map fun t => (t.1, t.1, t.1, t.2.2))
      (by
        intro q hq
        obtain ⟨t, ht, rfl⟩ := List.mem_map.mp hq
        refine ⟨rfl, rfl, rfl, rfl, fun c j => ?_⟩
        rw [hz t ht c j]
        ring)
      (prepare e0 sr) (prepare e0 sr) (prepare e0 sr) (linEngine_prepare 0 0 e0 sr) ch n
    simp only [List.map_map] at key
    rw [zero_mul, zero_mul, add_zero] at key
    exact key

/-- Witness for C17: one stereo block of 40 samples with every stage of the engine
switched on, inputs `i + 1` and `i * i`, scalars `2` and `-3`, output sample 35 of
channel 1. -/
theorem process_linear_witness :
    streamAt (runOutputs ratEnv (prepare (VibratoEngine.init 42) 48000)
        ([((⟨2, 40, fun _ i => (i : ℚ) + 1⟩ : AudioBuffer ℚ),
            (⟨2, 40, fun _ i => (i : ℚ) * i⟩ : AudioBuffer ℚ),
            ({ triggered := true, onsetMs := 10, rateHz := 5, pitchCents := 100,
               amplitude := 50, formant := 50, variation := 50 } : Params ℚ))].map
          fun t => (AudioBuffer.lincomb 2 (-3) t.1 t.2.1, t.2.2))) 1 35 =
      2 * streamAt (runOutputs ratEnv (prepare (VibratoEngine.init 42) 48000)
        ([((⟨2, 40, fun _ i => (i : ℚ) + 1⟩ : AudioBuffer ℚ),
            (⟨2, 40, fun _ i => (i : ℚ) * i⟩ : AudioBuffer ℚ),
            ({ triggered := true, onsetMs := 10, rateHz := 5, pitchCents := 100,
               amplitude := 50, formant := 50, variation := 50 } : Params ℚ))].map
          fun t => (t.1, t.2.2))) 1 35 +
      (-3) * streamAt (runOutputs ratEnv (prepare (VibratoEngine.init 42) 48000)
        ([((⟨2, 40, fun _ i => (i : ℚ) + 1⟩ : AudioBuffer ℚ),
            (⟨2, 40, fun _ i => (i : ℚ) * i⟩ : AudioBuffer ℚ),
            ({ triggered := true, onsetMs := 10, rateHz := 5, pitchCents := 100,
               amplitude := 50, formant := 50, variation := 50 } : Params ℚ))].map
          fun t => (t.2.1, t.2.2))) 1 35 :=
  (process_linear ratEnv (VibratoEngine.init 42) 48000 2 (-3)
    [((⟨2, 40, fun _ i => (i : ℚ) + 1⟩ : AudioBuffer ℚ),
      (⟨2, 40, fun _ i => (i : ℚ) * i⟩ : AudioBuffer ℚ),
      ({ triggered := true, onsetMs := 10, rateHz := 5, pitchCents := 100,
         amplitude := 50, formant := 50, variation := 50 } : Params ℚ))]
    (by simp) 1 35).1

end ClaimC17

/-! ## C18: the interpolation polynomial -/

section ClaimC18

variable {F : Type} [LinearOrderedField F] [FloorRing F]

/-- C18. The four-point interpolation polynomial of `readDelay` returns `y0` at
fraction 0 and `y1` at fraction 1 for all taps, and when the taps are the values at
`-1, 0, 1, 2` of a polynomial `q (t) = q0 + q1 t + q2 t^2` of degree at most 2 it
returns `q (t)` for every `t` (in particular for `t` in `[0, 1]`). -/
theorem hermite_interpolates (ym1 y0 y1 y2 q0 q1 q2 t : F) :
    hermite ym1 y0 y1 y2 0 = y0 ∧
    hermite ym1 y0 y1 y2 1 = y1 ∧
    hermite (q0 + q1 * (-1) + q2 * (-1) ^ 2) (q0 + q1 * 0 + q2 * 0 ^ 2)
        (q0 + q1 * 1 + q2 * 1 ^ 2) (q0 + q1 * 2 + q2 * 2 ^ 2) t =
      q0 + q1 * t + q2 * t ^ 2 := by
  unfold hermite
  refine ⟨by ring, by ring, by ring⟩

end ClaimC18

end Tribrato
